import Mathlib

/-!
Adafruit_GrayOLED: frame buffer, rotation and dirty window.

A shallow embedding of `Adafruit_GrayOLED.cpp` (the monochrome OLED frame
buffer of the Pi Pico port of the Adafruit GFX library) together with the
properties of its pixel primitives.

Conventions of the embedding:

* `int16_t` and `int` values are `Int`; a store into an `int16_t` lvalue goes
  through `toInt16`, a store into a `uint8_t` lvalue through `toUInt8`.
  Expressions are evaluated in `int` as C's integer promotions prescribe;
  with `int16_t` operands the index `x + (y / 8) * WIDTH` stays below `2^31`,
  so `int` arithmetic itself is not wrapped. `/` on `int` is `Int.tdiv`.
* the frame buffer is `Option (List Nat)`: `none` is the `NULL` pointer the
  constructor installs, `some bytes` an allocated block.
* a function that dereferences the buffer returns `none` when the access is
  outside the allocated block (or the pointer is `NULL`), `some _` otherwise.
* `malloc` is a parameter, a function from the requested size to `none`
  (failure) or a block; the I2C device behind `i2cDevice` is a log of the
  writes issued together with an oracle telling which writes fail.
-/

namespace GrayOLED

/-! ## Machine integers -/

/-- Value of an `int` expression after it is stored into an `int16_t`. -/
def toInt16 (v : Int) : Int := (v + 32768) % 65536 - 32768

/-- Value of an `int` expression after it is stored into a `uint8_t`. -/
def toUInt8 (v : Int) : Nat := (v % 256).toNat

/-- The macro `grayoled_swap(a, b)`:
`(((a) ^= (b)), ((b) ^= (a)), ((a) ^= (b)))` on two `int16_t` lvalues.
Returns the final values of `(a, b)`. -/
def grayoled_swap (a b : Int) : Int × Int :=
  let a1 := toInt16 (Int.xor a b)
  let b1 := toInt16 (Int.xor b a1)
  let a2 := toInt16 (Int.xor a1 b1)
  (a2, b1)

/-! ## Constants of `Adafruit_GrayOLED.h` -/

def GRAYOLED_SETCONTRAST : Nat := 0x81
def GRAYOLED_NORMALDISPLAY : Nat := 0xA6
def GRAYOLED_INVERTDISPLAY : Nat := 0xA7

def MONOOLED_BLACK : Nat := 0
def MONOOLED_WHITE : Nat := 1
def MONOOLED_INVERSE : Nat := 2

/-! ## Object state -/

/-- The data members of an `Adafruit_GrayOLED` object that the drawing
functions use: the panel size `WIDTH`/`HEIGHT` and the `rotation` inherited
from `Adafruit_GFX`, the frame buffer, and the dirty window. -/
structure Adafruit_GrayOLED where
  WIDTH : Int
  HEIGHT : Int
  rotation : Nat
  buffer : Option (List Nat)
  window_x1 : Int
  window_y1 : Int
  window_x2 : Int
  window_y2 : Int
deriving DecidableEq, Repr

namespace Adafruit_GrayOLED

/-- Modelled from the spec: `Adafruit_GFX::getRotation()`, inherited from the
graphics base class whose source is not part of `src/`; it returns the current
orientation, one of 0, 1, 2, 3 (0°, 90°, 180°, 270°). -/
def getRotation (s : Adafruit_GrayOLED) : Nat := s.rotation

/-- Modelled from the spec: `Adafruit_GFX::width()`, inherited from the
graphics base class whose source is not part of `src/`; the logical width is
the panel width for orientations 0 and 2 and the panel height for 1 and 3. -/
def width (s : Adafruit_GrayOLED) : Int :=
  match s.rotation with
  | 1 => s.HEIGHT
  | 3 => s.HEIGHT
  | _ => s.WIDTH

/-- Modelled from the spec: `Adafruit_GFX::height()`, inherited from the
graphics base class whose source is not part of `src/`; the logical height is
the panel height for orientations 0 and 2 and the panel width for 1 and 3. -/
def height (s : Adafruit_GrayOLED) : Int :=
  match s.rotation with
  | 1 => s.WIDTH
  | 3 => s.WIDTH
  | _ => s.HEIGHT

/-- Modelled from the spec: `Adafruit_GFX::setRotation(r)`, inherited from the
graphics base class whose source is not part of `src/`; it changes the
orientation only and never re-maps buffer contents. -/
def setRotation (s : Adafruit_GrayOLED) (r : Nat) : Adafruit_GrayOLED :=
  { s with rotation := r % 4 }

/-- The byte count `WIDTH * ((HEIGHT + 7) / 8)` that `_init` passes to
`malloc` and `clearDisplay` passes to `memset`. -/
def bufferSize (s : Adafruit_GrayOLED) : Int :=
  s.WIDTH * ((s.HEIGHT + 7).tdiv 8)

/-- The read `buffer[i]`: `none` when the pointer is `NULL` or `i` is outside
the allocated block. -/
def readByte (s : Adafruit_GrayOLED) (i : Int) : Option Nat :=
  match s.buffer with
  | none => none
  | some buf => if i < 0 then none else buf[i.toNat]?

/-- The compound assignment `buffer[i] op= ...`, where `f` maps the old byte
to the stored one: `none` when the pointer is `NULL` or `i` is outside the
allocated block. -/
def modifyByte (s : Adafruit_GrayOLED) (i : Int) (f : Nat → Nat) :
    Option Adafruit_GrayOLED :=
  match s.buffer with
  | none => none
  | some buf =>
    if i < 0 then none
    else
      match buf[i.toNat]? with
      | none => none
      | some b => some { s with buffer := some (buf.set i.toNat (f b)) }

/-- `Adafruit_GrayOLED::drawPixel(int16_t x, int16_t y, uint16_t color)`. -/
def drawPixel (s : Adafruit_GrayOLED) (x y : Int) (color : Nat) :
    Option Adafruit_GrayOLED :=
  if 0 ≤ x ∧ x < s.width ∧ 0 ≤ y ∧ y < s.height then
    -- Pixel is in-bounds. Rotate coordinates if needed.
    let p : Int × Int :=
      match s.getRotation with
      | 1 =>
        let q := grayoled_swap x y
        (toInt16 (s.WIDTH - q.1 - 1), q.2)
      | 2 => (toInt16 (s.WIDTH - x - 1), toInt16 (s.HEIGHT - y - 1))
      | 3 =>
        let q := grayoled_swap x y
        (q.1, toInt16 (s.HEIGHT - q.2 - 1))
      | _ => (x, y)
    let x := p.1
    let y := p.2
    -- adjust dirty window
    let s1 : Adafruit_GrayOLED :=
      { s with
        window_x1 := if s.window_x1 < x then s.window_x1 else x
        window_y1 := if s.window_y1 < y then s.window_y1 else y
        window_x2 := if s.window_x2 > x then s.window_x2 else x
        window_y2 := if s.window_y2 > y then s.window_y2 else y }
    let i : Int := x + (y.tdiv 8) * s.WIDTH
    let m : Int := (1 : Int) <<< (Int.land y 7)
    match color with
    | 1 => -- case MONOOLED_WHITE: buffer[i] |= (1 << (y & 7))
      s1.modifyByte i (fun b => toUInt8 (Int.lor (b : Int) m))
    | 0 => -- case MONOOLED_BLACK: buffer[i] &= ~(1 << (y & 7))
      s1.modifyByte i (fun b => toUInt8 (Int.land (b : Int) (Int.lnot m)))
    | 2 => -- case MONOOLED_INVERSE: buffer[i] ^= (1 << (y & 7))
      s1.modifyByte i (fun b => toUInt8 (Int.xor (b : Int) m))
    | _ => some s1 -- the switch has no default
  else some s

/-- `Adafruit_GrayOLED::getPixel(int16_t x, int16_t y)`. -/
def getPixel (s : Adafruit_GrayOLED) (x y : Int) : Option Bool :=
  if 0 ≤ x ∧ x < s.width ∧ 0 ≤ y ∧ y < s.height then
    -- Pixel is in-bounds. Rotate coordinates if needed.
    let p : Int × Int :=
      match s.getRotation with
      | 1 =>
        let q := grayoled_swap x y
        (toInt16 (s.WIDTH - q.1 - 1), q.2)
      | 2 => (toInt16 (s.WIDTH - x - 1), toInt16 (s.HEIGHT - y - 1))
      | 3 =>
        let q := grayoled_swap x y
        (q.1, toInt16 (s.HEIGHT - q.2 - 1))
      | _ => (x, y)
    let x := p.1
    let y := p.2
    match s.readByte (x + (y.tdiv 8) * s.WIDTH) with
    | none => none
    | some b => some (decide (Int.land (b : Int) ((1 : Int) <<< (Int.land y 7)) ≠ 0))
  else some false -- Pixel out of bounds

/-- `Adafruit_GrayOLED::clearDisplay()`: `memset` of the first
`WIDTH * ((HEIGHT + 7) / 8)` bytes, then the dirty window is set to the whole
panel. `none` when the pointer is `NULL` or the block is shorter than the
`memset` length. -/
def clearDisplay (s : Adafruit_GrayOLED) : Option Adafruit_GrayOLED :=
  match s.buffer with
  | none => none
  | some buf =>
    let n := s.bufferSize
    if 0 ≤ n ∧ n.toNat ≤ buf.length then
      some { s with
        buffer := some (List.replicate n.toNat 0 ++ buf.drop n.toNat)
        -- set max dirty window
        window_x1 := 0
        window_y1 := 0
        window_x2 := toInt16 (s.WIDTH - 1)
        window_y2 := toInt16 (s.HEIGHT - 1) }
    else none

end Adafruit_GrayOLED

/-! ## Specification-side vocabulary -/

/-- The documented rotation table: logical `(x, y)` to physical `(x', y')`
for orientation `r` on a `W × H` panel. -/
def rotationMap (r : Nat) (W H x y : Int) : Int × Int :=
  match r with
  | 1 => (W - 1 - y, x)
  | 2 => (W - 1 - x, H - 1 - y)
  | 3 => (y, H - 1 - x)
  | _ => (x, y)

/-- The documented byte index of physical `(px, py)`: `x + (y/8)*width`. -/
def byteIndex (W px py : Int) : Nat := (px + py / 8 * W).toNat

/-- The documented bit index of physical row `py`: `y mod 8`. -/
def bitIndex (py : Int) : Nat := (py % 8).toNat

/-- The bit of the physical point `(px, py)` in a buffer of a panel of
width `W`. -/
def bitAt (buf : List Nat) (W px py : Int) : Bool :=
  (buf.getD (byteIndex W px py) 0).testBit (bitIndex py)

/-- The byte a pixel write of colour `c` stores, from the old byte and the
mask `m` of the addressed bit: OR for white, AND NOT for black, XOR for
inverse; any other colour value stores nothing. -/
def pixelOp (c old m : Nat) : Nat :=
  match c with
  | 0 => old &&& (255 - m)
  | 1 => old ||| m
  | 2 => old ^^^ m
  | _ => old

namespace Adafruit_GrayOLED

/-- The logical point `(x, y)` passes the bounds test of `drawPixel` and
`getPixel`. -/
def InBounds (s : Adafruit_GrayOLED) (x y : Int) : Prop :=
  0 ≤ x ∧ x < s.width ∧ 0 ≤ y ∧ y < s.height

instance (s : Adafruit_GrayOLED) (x y : Int) : Decidable (s.InBounds x y) := by
  unfold InBounds; infer_instance

/-- The frame buffer is allocated with the length `_init` requests and holds
bytes. -/
def BufferOk (s : Adafruit_GrayOLED) : Prop :=
  match s.buffer with
  | none => False
  | some buf => (buf.length : Int) = s.bufferSize ∧ ∀ b ∈ buf, b < 256

instance (s : Adafruit_GrayOLED) : Decidable s.BufferOk := by
  unfold BufferOk; split <;> infer_instance

/-- An initialised display: a positive panel size that fits `int16_t`, an
orientation in `0..3`, and an allocated buffer. -/
def Valid (s : Adafruit_GrayOLED) : Prop :=
  0 < s.WIDTH ∧ s.WIDTH ≤ 32767 ∧ 0 < s.HEIGHT ∧ s.HEIGHT ≤ 32767 ∧
    s.rotation < 4 ∧ s.BufferOk

instance (s : Adafruit_GrayOLED) : Decidable s.Valid := by
  unfold Valid; infer_instance

/-- The physical point that the documented table assigns to logical
`(x, y)` in state `s`. -/
def phys (s : Adafruit_GrayOLED) (x y : Int) : Int × Int :=
  rotationMap s.rotation s.WIDTH s.HEIGHT x y

end Adafruit_GrayOLED

/-- One call of a drawing session: the orientation in effect (installed with
`setRotation`) and the arguments of `drawPixel`. -/
structure DrawCall where
  rot : Nat
  x : Int
  y : Int
  color : Nat
deriving DecidableEq, Repr

/-- A finite sequence of `drawPixel` calls, each under its own orientation.
`none` as soon as one call faults. -/
def drawAll (s : Adafruit_GrayOLED) : List DrawCall → Option Adafruit_GrayOLED
  | [] => some s
  | c :: cs =>
    match (s.setRotation c.rot).drawPixel c.x c.y c.color with
    | none => none
    | some s' => drawAll s' cs

/-- Modelled from the spec: the dirty window "holding nothing pending" that
`reset_empty()` leaves; the flush that performs it is not part of `src/`. The
spec leaves the sentinel open, so it is taken as any window lying outside the
panel on every side: lower bounds at or beyond the last column and row, upper
bounds at or before the first. -/
def WindowEmpty (s : Adafruit_GrayOLED) : Prop :=
  s.WIDTH - 1 ≤ s.window_x1 ∧ s.HEIGHT - 1 ≤ s.window_y1 ∧
    s.window_x2 ≤ 0 ∧ s.window_y2 ≤ 0

instance (s : Adafruit_GrayOLED) : Decidable (WindowEmpty s) := by
  unfold WindowEmpty; infer_instance

/-! ## Allocation and initialisation -/

/-- The allocator handed out blocks of the requested length: whenever
`malloc n` succeeds, the block has `n` bytes (its content is arbitrary). -/
def LawfulMalloc (malloc : Int → Option (List Nat)) : Prop :=
  ∀ n blk, malloc n = some blk → (blk.length : Int) = n

namespace Adafruit_GrayOLED

/-- `Adafruit_GrayOLED::_init()`. `malloc` is the allocator: `none` is the
`NULL` result of a failed allocation. The result is the returned `bool` and the
object afterwards; `none` when `clearDisplay` faults. -/
def _init (s : Adafruit_GrayOLED) (malloc : Int → Option (List Nat)) :
    Option (Bool × Adafruit_GrayOLED) :=
  -- attempt to malloc the bitmap framebuffer
  let s1 : Adafruit_GrayOLED :=
    match s.buffer with
    | some _ => s -- (!buffer) is false, malloc is not called
    | none => { s with buffer := malloc (s.WIDTH * ((s.HEIGHT + 7).tdiv 8)) }
  match s1.buffer with
  | none => some (false, s1)
  | some _ =>
    match s1.clearDisplay with
    | none => none
    | some s2 =>
      -- set max dirty window
      some (true,
        { s2 with
          window_x1 := 0
          window_y1 := 0
          window_x2 := toInt16 (s2.WIDTH - 1)
          window_y2 := toInt16 (s2.HEIGHT - 1) })

end Adafruit_GrayOLED

/-! ## The bus -/

/-- Modelled from the spec: the `Adafruit_I2CDevice` that the member
`i2cDevice` points to, whose source is not part of `src/`: an opaque
synchronous transport whose writes succeed or fail. `writes` records every
write issued so far, in order; `fails k` tells whether write number `k`
(counted from 0) fails. -/
structure Adafruit_I2CDevice where
  writes : List (List Nat)
  fails : Nat → Bool

/-- Modelled from the spec: `Adafruit_I2CDevice::write(buffer, len, stop)`,
whose source is not part of `src/`: one bus write of the given bytes; the
returned `bool` is `true` when the transport accepted it. -/
def Adafruit_I2CDevice.write (d : Adafruit_I2CDevice) (bytes : List Nat) :
    Bool × Adafruit_I2CDevice :=
  (!d.fails d.writes.length, { d with writes := d.writes ++ [bytes] })

/-- An `Adafruit_GrayOLED` object together with the device its member
`i2cDevice` points to. -/
structure GrayOLEDBus where
  oled : Adafruit_GrayOLED
  i2cDevice : Adafruit_I2CDevice

namespace GrayOLEDBus

/-- `Adafruit_GrayOLED::send_cmd(uint8_t cmd)`: the `bool` that `write`
returns is discarded, the function is `void`. -/
def send_cmd (o : GrayOLEDBus) (cmd : Nat) : GrayOLEDBus :=
  let buf : List Nat := [0x80, cmd]
  { o with i2cDevice := (o.i2cDevice.write (buf.take 2)).2 }

/-- The loop `for (; i < num; i++) send_cmd(buf[i]);` of `send_cmd_list`
with `left = num - i` iterations to go. `none` when `buf[i]` is read outside
the array. -/
def send_cmd_list_from (buf : List Nat) : Nat → Nat → GrayOLEDBus → Option GrayOLEDBus
  | _, 0, o => some o
  | i, left + 1, o =>
    match buf[i]? with
    | none => none
    | some c => send_cmd_list_from buf (i + 1) left (o.send_cmd c)

/-- `Adafruit_GrayOLED::send_cmd_list(const uint8_t *buf, uint8_t num)`. -/
def send_cmd_list (o : GrayOLEDBus) (buf : List Nat) (num : Nat) : Option GrayOLEDBus :=
  send_cmd_list_from buf 0 num o

/-- `Adafruit_GrayOLED::invertDisplay(bool i)`. -/
def invertDisplay (o : GrayOLEDBus) (i : Bool) : GrayOLEDBus :=
  o.send_cmd (if i then GRAYOLED_INVERTDISPLAY else GRAYOLED_NORMALDISPLAY)

/-- `Adafruit_GrayOLED::setContrast(uint8_t level)`. -/
def setContrast (o : GrayOLEDBus) (level : Nat) : Option GrayOLEDBus :=
  let cmd : List Nat := [GRAYOLED_SETCONTRAST, level]
  o.send_cmd_list cmd 2

/-- `Adafruit_GrayOLED::send_buf(uint8_t buf[], int buflen)`. `malloc` is the
allocator; its result is not checked, so a failed allocation faults at
`temp_buf[0] = 0x40`. The result is the object afterwards and the caller's
array `buf`; `none` on a fault (store or copy outside a block). -/
def send_buf (o : GrayOLEDBus) (malloc : Int → Option (List Nat)) (buf : List Nat)
    (buflen : Int) : Option (GrayOLEDBus × List Nat) :=
  match malloc (buflen + 1) with
  | none => none
  | some blk =>
    -- temp_buf[0] = 0x40
    if blk.length = 0 then none
    else
      let t0 := blk.set 0 0x40
      -- memcpy(temp_buf + 1, buf, buflen)
      if buflen < 0 ∨ buf.length < buflen.toNat ∨ t0.length < 1 + buflen.toNat then none
      else
        let t1 := t0.take 1 ++ buf.take buflen.toNat ++ t0.drop (1 + buflen.toNat)
        -- i2cDevice->write(temp_buf, buflen + 1, false)
        some ({ o with i2cDevice := (o.i2cDevice.write (t1.take (buflen + 1).toNat)).2 }, buf)

end GrayOLEDBus

/-- The command frame of byte `c`: `0x80` then `c`. -/
def commandFrame (c : Nat) : List Nat := [0x80, c]

/-- The data frame of a payload: `0x40` then the payload bytes. -/
def dataFrame (payload : List Nat) : List Nat := 0x40 :: payload

/-! ## Example displays -/

/-- A blank 16×8 panel in orientation `r` whose dirty window holds nothing
pending (lower bounds above, upper bounds below every panel coordinate). -/
def panel16x8 (r : Nat) : Adafruit_GrayOLED :=
  ⟨16, 8, r, some (List.replicate 16 0), 1024, 1024, -1, -1⟩

/-- A 5×12 panel (height not a multiple of 8) with a patterned buffer. -/
def panel5x12 (r : Nat) : Adafruit_GrayOLED :=
  ⟨5, 12, r, some [0xA5, 0x00, 0xFF, 0x3C, 0x81, 0x0F, 0xF0, 0x55, 0xAA, 0x01], 0, 0, 4, 11⟩

/-- A bus with no write issued yet on which every write fails. -/
def deadBus : Adafruit_I2CDevice := ⟨[], fun _ => true⟩

/-- A bus with no write issued yet on which every write succeeds. -/
def goodBus : Adafruit_I2CDevice := ⟨[], fun _ => false⟩

/-- An allocator that always fails. -/
def mallocFail : Int → Option (List Nat) := fun _ => none

/-- An allocator that always succeeds, with blocks filled with `0xCD`. -/
def mallocOk : Int → Option (List Nat) :=
  fun n => if 0 ≤ n then some (List.replicate n.toNat 0xCD) else none

/-! ## Machine-integer lemmas -/

theorem toInt16_of_range {v : Int} (h1 : -32768 ≤ v) (h2 : v ≤ 32767) :
    toInt16 v = v := by
  unfold toInt16; omega

theorem toUInt8_natCast (n : Nat) : toUInt8 (n : Int) = n % 256 := by
  unfold toUInt8; omega

theorem grayoled_swap_eq {a b : Int} (ha : 0 ≤ a) (ha2 : a ≤ 32767)
    (hb : 0 ≤ b) (hb2 : b ≤ 32767) : grayoled_swap a b = (b, a) := by
  obtain ⟨m, rfl⟩ := Int.eq_ofNat_of_zero_le ha
  obtain ⟨n, rfl⟩ := Int.eq_ofNat_of_zero_le hb
  have hm : m < 2 ^ 15 := by omega
  have hn : n < 2 ^ 15 := by omega
  have hx : m ^^^ n < 2 ^ 15 := Nat.xor_lt_two_pow hm hn
  have e1 : Int.xor (m : Int) (n : Int) = ((m ^^^ n : Nat) : Int) := rfl
  have e2 : Int.xor (n : Int) ((m ^^^ n : Nat) : Int) = ((n ^^^ (m ^^^ n) : Nat) : Int) := rfl
  have e3 : n ^^^ (m ^^^ n) = m := by
    rw [Nat.xor_comm m n, Nat.xor_cancel_left]
  have e4 : Int.xor ((m ^^^ n : Nat) : Int) (m : Int) = (((m ^^^ n) ^^^ m : Nat) : Int) := rfl
  have e5 : (m ^^^ n) ^^^ m = n := by
    rw [Nat.xor_comm m n, Nat.xor_cancel_right]
  have t1 : toInt16 ((m ^^^ n : Nat) : Int) = ((m ^^^ n : Nat) : Int) :=
    toInt16_of_range (by omega) (by omega)
  have t2 : toInt16 (m : Int) = (m : Int) := toInt16_of_range (by omega) (by omega)
  have t3 : toInt16 (n : Int) = (n : Int) := toInt16_of_range (by omega) (by omega)
  unfold grayoled_swap
  simp only [e1, t1, e2, e3, t2, e4, e5, t3]

theorem mask_eq {y : Int} (hy : 0 ≤ y) :
    (1 : Int) <<< (Int.land y 7) = ((2 ^ bitIndex y : Nat) : Int) := by
  obtain ⟨n, rfl⟩ := Int.eq_ofNat_of_zero_le hy
  have e1 : Int.land (n : Int) 7 = ((n &&& 7 : Nat) : Int) := rfl
  have e2 : n &&& 7 = n % 8 := Nat.and_pow_two_sub_one_eq_mod n 3
  have e3 : bitIndex (n : Int) = n % 8 := by unfold bitIndex; omega
  rw [e1, e2, e3]
  have := Int.shiftLeft_coe_nat 1 (n % 8)
  rw [Nat.one_shiftLeft] at this
  exact_mod_cast this

theorem bitIndex_lt (y : Int) : bitIndex y < 8 := by
  unfold bitIndex; omega

/-! ## Byte-level lemmas -/

theorem andNot_byte {b k : Nat} (hb : b < 256) (hk : k < 8) :
    Nat.ldiff b (2 ^ k) = b &&& (255 - 2 ^ k) := by
  apply Nat.eq_of_testBit_eq
  intro i
  rw [Nat.testBit_ldiff, Nat.testBit_and, Nat.testBit_two_pow]
  by_cases hi : i < 8
  · interval_cases k <;> interval_cases i <;> simp [Nat.testBit, Nat.shiftRight_eq_div_pow]
  · have hbi : b.testBit i = false :=
      Nat.testBit_lt_two_pow (lt_of_lt_of_le hb (by
        calc 256 = 2 ^ 8 := by norm_num
          _ ≤ 2 ^ i := Nat.pow_le_pow_right (by norm_num) (by omega)))
    simp [hbi]

theorem two_pow_lt_256 {k : Nat} (hk : k < 8) : 2 ^ k < 2 ^ 8 :=
  Nat.pow_lt_pow_right (by norm_num) hk

theorem or_byte {b k : Nat} (hb : b < 256) (hk : k < 8) :
    toUInt8 (Int.lor (b : Int) ((2 ^ k : Nat) : Int)) = b ||| 2 ^ k := by
  have e : Int.lor (b : Int) ((2 ^ k : Nat) : Int) = ((b ||| 2 ^ k : Nat) : Int) := rfl
  have h : b ||| 2 ^ k < 2 ^ 8 := Nat.or_lt_two_pow (by simpa using hb) (two_pow_lt_256 hk)
  rw [e, toUInt8_natCast]
  exact Nat.mod_eq_of_lt (by simpa using h)

theorem xor_byte {b k : Nat} (hb : b < 256) (hk : k < 8) :
    toUInt8 (Int.xor (b : Int) ((2 ^ k : Nat) : Int)) = b ^^^ 2 ^ k := by
  have e : Int.xor (b : Int) ((2 ^ k : Nat) : Int) = ((b ^^^ 2 ^ k : Nat) : Int) := rfl
  have h : b ^^^ 2 ^ k < 2 ^ 8 := Nat.xor_lt_two_pow (by simpa using hb) (two_pow_lt_256 hk)
  rw [e, toUInt8_natCast]
  exact Nat.mod_eq_of_lt (by simpa using h)

theorem andNot_int_byte {b k : Nat} (hb : b < 256) (hk : k < 8) :
    toUInt8 (Int.land (b : Int) (Int.lnot ((2 ^ k : Nat) : Int))) = b &&& (255 - 2 ^ k) := by
  have e : Int.land (b : Int) (Int.lnot ((2 ^ k : Nat) : Int))
      = ((Nat.ldiff b (2 ^ k) : Nat) : Int) := rfl
  have h : b &&& (255 - 2 ^ k) < 2 ^ 8 := Nat.and_lt_two_pow b (lt_of_le_of_lt (Nat.sub_le _ _) (by norm_num))
  rw [e, toUInt8_natCast, andNot_byte hb hk]
  exact Nat.mod_eq_of_lt (by simpa using h)

theorem test_byte (b k : Nat) :
    decide (Int.land (b : Int) ((2 ^ k : Nat) : Int) ≠ 0) = b.testBit k := by
  have e : Int.land (b : Int) ((2 ^ k : Nat) : Int) = ((b &&& 2 ^ k : Nat) : Int) := rfl
  rw [e, Nat.and_two_pow]
  cases h : b.testBit k <;> simp

theorem pixelOp_other {c : Nat} (hc : c ≠ 0 ∧ c ≠ 1 ∧ c ≠ 2) (old m : Nat) :
    pixelOp c old m = old := by
  obtain ⟨h0, h1, h2⟩ := hc
  unfold pixelOp
  split
  · exact absurd rfl h0
  · exact absurd rfl h1
  · exact absurd rfl h2
  · rfl

theorem list_set_self (l : List Nat) (i : Nat) (h : i < l.length) :
    l.set i l[i] = l := by
  apply List.ext_getElem?
  intro j
  rw [List.getElem?_set]
  split_ifs with hij
  · subst hij
    exact (List.getElem?_eq_getElem h).symm
  · rfl

theorem pixelOp_lt {c b k : Nat} (hb : b < 256) (hk : k < 8) :
    pixelOp c b (2 ^ k) < 256 := by
  have h8 : (256 : Nat) = 2 ^ 8 := by norm_num
  unfold pixelOp
  split
  · rw [h8]; exact Nat.and_lt_two_pow b (lt_of_le_of_lt (Nat.sub_le _ _) (by norm_num))
  · rw [h8]; exact Nat.or_lt_two_pow (by simpa using hb) (two_pow_lt_256 hk)
  · rw [h8]; exact Nat.xor_lt_two_pow (by simpa using hb) (two_pow_lt_256 hk)
  · exact hb

theorem pixelOp_testBit_ne {c old k j : Nat} (hold : old < 256) (hk : k < 8)
    (hj : j ≠ k) : (pixelOp c old (2 ^ k)).testBit j = old.testBit j := by
  have hkj : ¬ k = j := fun h => hj h.symm
  unfold pixelOp
  split
  · rw [← andNot_byte hold hk, Nat.testBit_ldiff, Nat.testBit_two_pow]
    simp [hkj]
  · rw [Nat.testBit_or, Nat.testBit_two_pow]
    simp [hkj]
  · rw [Nat.testBit_xor, Nat.testBit_two_pow]
    simp [hkj]
  · rfl

theorem pixelOp_testBit_white (old k : Nat) :
    (pixelOp 1 old (2 ^ k)).testBit k = true := by
  show (old ||| 2 ^ k).testBit k = true
  rw [Nat.testBit_or, Nat.testBit_two_pow_self, Bool.or_true]

theorem pixelOp_testBit_black {old k : Nat} (hold : old < 256) (hk : k < 8) :
    (pixelOp 0 old (2 ^ k)).testBit k = false := by
  show (old &&& (255 - 2 ^ k)).testBit k = false
  rw [← andNot_byte hold hk, Nat.testBit_ldiff, Nat.testBit_two_pow_self]
  simp

theorem pixelOp_testBit_inverse (old k : Nat) :
    (pixelOp 2 old (2 ^ k)).testBit k = !old.testBit k := by
  show (old ^^^ 2 ^ k).testBit k = !old.testBit k
  rw [Nat.testBit_xor, Nat.testBit_two_pow_self]
  cases old.testBit k <;> rfl

/-! ## Geometry of the rotation and of the byte layout -/

namespace Adafruit_GrayOLED

theorem phys_range {s : Adafruit_GrayOLED} {x y : Int} (hv : s.Valid)
    (hb : s.InBounds x y) :
    0 ≤ (s.phys x y).1 ∧ (s.phys x y).1 < s.WIDTH ∧
      0 ≤ (s.phys x y).2 ∧ (s.phys x y).2 < s.HEIGHT := by
  obtain ⟨W, H, r, b, x1, y1, x2, y2⟩ := s
  obtain ⟨hW, hW2, hH, hH2, hr, -⟩ := hv
  simp only at hW hW2 hH hH2 hr
  unfold InBounds at hb
  interval_cases r <;> simp only [width, height] at hb <;>
    simp only [phys, rotationMap] <;> omega

end Adafruit_GrayOLED

theorem index_range {W H px py : Int} (hW : 0 < W) (hx : 0 ≤ px) (hx2 : px < W)
    (hy : 0 ≤ py) (hy2 : py < H) :
    0 ≤ px + py / 8 * W ∧ px + py / 8 * W < W * ((H + 7).tdiv 8) := by
  have e : (H + 7).tdiv 8 = (H + 7) / 8 := Int.tdiv_eq_ediv (by omega) (by norm_num)
  have hq : 0 ≤ py / 8 := by omega
  have hq2 : py / 8 + 1 ≤ (H + 7) / 8 := by omega
  have h1 : 0 ≤ py / 8 * W := Int.mul_nonneg hq (le_of_lt hW)
  have h2 : (py / 8 + 1) * W ≤ (H + 7) / 8 * W :=
    Int.mul_le_mul_of_nonneg_right hq2 (le_of_lt hW)
  rw [e]
  constructor
  · omega
  · have h3 : (py / 8 + 1) * W = py / 8 * W + W := by ring
    have h4 : W * ((H + 7) / 8) = (H + 7) / 8 * W := by ring
    omega

/-- Two physical points of the panel that share a byte index and a bit index
are the same point. -/
theorem byte_bit_inj {W px py qx qy : Int} (hW : 0 < W) (hp1 : 0 ≤ px) (hp2 : px < W)
    (hq1 : 0 ≤ qx) (hq2 : qx < W) (hpy : 0 ≤ py) (hqy : 0 ≤ qy)
    (h1 : byteIndex W px py = byteIndex W qx qy) (h2 : bitIndex py = bitIndex qy) :
    px = qx ∧ py = qy := by
  unfold byteIndex at h1
  unfold bitIndex at h2
  have ha : 0 ≤ py / 8 := by omega
  have hb : 0 ≤ qy / 8 := by omega
  have ha' : 0 ≤ py / 8 * W := Int.mul_nonneg ha (le_of_lt hW)
  have hb' : 0 ≤ qy / 8 * W := Int.mul_nonneg hb (le_of_lt hW)
  have e : px + py / 8 * W = qx + qy / 8 * W := by omega
  have hq : py / 8 = qy / 8 := by
    rcases lt_trichotomy (py / 8) (qy / 8) with h | h | h
    · have h3 : (py / 8 + 1) * W ≤ qy / 8 * W :=
        Int.mul_le_mul_of_nonneg_right (by omega) (le_of_lt hW)
      have h4 : (py / 8 + 1) * W = py / 8 * W + W := by ring
      omega
    · exact h
    · have h3 : (qy / 8 + 1) * W ≤ py / 8 * W :=
        Int.mul_le_mul_of_nonneg_right (by omega) (le_of_lt hW)
      have h4 : (qy / 8 + 1) * W = qy / 8 * W + W := by ring
      omega
  rw [hq] at e
  constructor <;> omega

namespace Adafruit_GrayOLED

/-- The value the rotation `switch` of `drawPixel` and `getPixel` leaves in
`(x, y)` is the documented table entry. -/
theorem rotate_eq {s : Adafruit_GrayOLED} {x y : Int} (hv : s.Valid)
    (hb : s.InBounds x y) :
    (match s.getRotation with
      | 1 =>
        let q := grayoled_swap x y
        (toInt16 (s.WIDTH - q.1 - 1), q.2)
      | 2 => (toInt16 (s.WIDTH - x - 1), toInt16 (s.HEIGHT - y - 1))
      | 3 =>
        let q := grayoled_swap x y
        (q.1, toInt16 (s.HEIGHT - q.2 - 1))
      | _ => (x, y)) = s.phys x y := by
  obtain ⟨W, H, r, b, x1, y1, x2, y2⟩ := s
  obtain ⟨hW, hW2, hH, hH2, hr, -⟩ := hv
  simp only at hW hW2 hH hH2 hr
  unfold InBounds at hb
  interval_cases r <;> simp only [width, height] at hb <;>
    simp only [phys, rotationMap, getRotation]
  · rw [grayoled_swap_eq (by omega) (by omega) (by omega) (by omega)]
    simp only []
    rw [toInt16_of_range (by omega) (by omega)]
    congr 1
    omega
  · rw [toInt16_of_range (by omega) (by omega), toInt16_of_range (by omega) (by omega)]
    congr 1 <;> omega
  · rw [grayoled_swap_eq (by omega) (by omega) (by omega) (by omega)]
    simp only []
    rw [toInt16_of_range (by omega) (by omega)]
    congr 1
    omega

theorem buffer_of_valid {s : Adafruit_GrayOLED} (hv : s.Valid) :
    ∃ buf, s.buffer = some buf ∧ (buf.length : Int) = s.bufferSize ∧
      ∀ b ∈ buf, b < 256 := by
  have h := hv.2.2.2.2.2
  unfold BufferOk at h
  split at h
  · exact h.elim
  · next buf hbuf => exact ⟨buf, hbuf, h⟩

theorem byteIndex_lt {s : Adafruit_GrayOLED} {x y : Int} {buf : List Nat}
    (hv : s.Valid) (hb : s.InBounds x y) (hl : (buf.length : Int) = s.bufferSize) :
    byteIndex s.WIDTH (s.phys x y).1 (s.phys x y).2 < buf.length := by
  obtain ⟨h1, h2, h3, h4⟩ := phys_range hv hb
  obtain ⟨h5, h6⟩ := index_range hv.1 h1 h2 h3 h4
  unfold bufferSize at hl
  unfold byteIndex
  omega

theorem modifyByte_eq {s : Adafruit_GrayOLED} {i : Int} {buf : List Nat}
    (f : Nat → Nat) (hbuf : s.buffer = some buf) (h0 : 0 ≤ i)
    (hlt : i.toNat < buf.length) :
    s.modifyByte i f =
      some { s with buffer := some (buf.set i.toNat (f (buf.getD i.toNat 0))) } := by
  unfold modifyByte
  rw [hbuf]
  simp only [not_lt.mpr h0, if_false, List.getElem?_eq_getElem hlt,
    List.getD_eq_getElem buf 0 hlt]

theorem readByte_eq {s : Adafruit_GrayOLED} {i : Int} {buf : List Nat}
    (hbuf : s.buffer = some buf) (h0 : 0 ≤ i) (hlt : i.toNat < buf.length) :
    s.readByte i = some (buf.getD i.toNat 0) := by
  unfold readByte
  rw [hbuf]
  simp only [not_lt.mpr h0, if_false, List.getElem?_eq_getElem hlt,
    List.getD_eq_getElem buf 0 hlt]

/-- What an in-bounds `drawPixel` does, in terms of the documented table and
byte layout. -/
theorem drawPixel_eq {s : Adafruit_GrayOLED} {x y : Int} (c : Nat) (hv : s.Valid)
    (hb : s.InBounds x y) {buf : List Nat} (hbuf : s.buffer = some buf) :
    s.drawPixel x y c = some
      { s with
        buffer := some (buf.set (byteIndex s.WIDTH (s.phys x y).1 (s.phys x y).2)
          (pixelOp c (buf.getD (byteIndex s.WIDTH (s.phys x y).1 (s.phys x y).2) 0)
            (2 ^ bitIndex (s.phys x y).2)))
        window_x1 := min s.window_x1 (s.phys x y).1
        window_y1 := min s.window_y1 (s.phys x y).2
        window_x2 := max s.window_x2 (s.phys x y).1
        window_y2 := max s.window_y2 (s.phys x y).2 } := by
  obtain ⟨buf0, hbuf0, hlen, hbytes⟩ := buffer_of_valid hv
  obtain rfl : buf0 = buf := by rw [hbuf0] at hbuf; exact Option.some.inj hbuf
  have hlt := byteIndex_lt hv hb hlen
  obtain ⟨h1, h2, h3, h4⟩ := phys_range hv hb
  obtain ⟨h5, h6⟩ := index_range hv.1 h1 h2 h3 h4
  have hrot := rotate_eq hv hb
  have hb' : 0 ≤ x ∧ x < s.width ∧ 0 ≤ y ∧ y < s.height := hb
  have hdiv : (s.phys x y).2.tdiv 8 = (s.phys x y).2 / 8 :=
    Int.tdiv_eq_ediv h3 (by norm_num)
  have hget : buf0[byteIndex s.WIDTH (s.phys x y).1 (s.phys x y).2] < 256 :=
    hbytes _ (List.getElem_mem _)
  have hk := bitIndex_lt (s.phys x y).2
  unfold drawPixel
  rw [if_pos hb']
  simp only [hrot, hdiv, mask_eq h3]
  have hmin : ∀ a b : Int, (if a < b then a else b) = min a b := by
    intro a b; rw [min_def]; split_ifs <;> omega
  have hmax : ∀ a b : Int, (if a > b then a else b) = max a b := by
    intro a b; rw [max_def]; split_ifs <;> omega
  simp only [hmin, hmax]
  rw [List.getD_eq_getElem buf0 0 hlt]
  unfold byteIndex at hlt hget ⊢
  split
  · simp only [modifyByte, hbuf, not_lt.mpr h5, if_false, List.getElem?_eq_getElem hlt,
      or_byte hget hk, pixelOp]
  · simp only [modifyByte, hbuf, not_lt.mpr h5, if_false, List.getElem?_eq_getElem hlt,
      andNot_int_byte hget hk, pixelOp]
  · simp only [modifyByte, hbuf, not_lt.mpr h5, if_false, List.getElem?_eq_getElem hlt,
      xor_byte hget hk, pixelOp]
  · next hc1 hc0 hc2 =>
    have hc : c ≠ 0 ∧ c ≠ 1 ∧ c ≠ 2 := ⟨fun h => hc0 h, fun h => hc1 h, fun h => hc2 h⟩
    rw [pixelOp_other hc, list_set_self _ _ hlt, hbuf]

/-- What an in-bounds `getPixel` returns, in terms of the documented table
and byte layout. -/
theorem getPixel_eq {s : Adafruit_GrayOLED} {x y : Int} (hv : s.Valid)
    (hb : s.InBounds x y) {buf : List Nat} (hbuf : s.buffer = some buf) :
    s.getPixel x y = some (bitAt buf s.WIDTH (s.phys x y).1 (s.phys x y).2) := by
  obtain ⟨buf0, hbuf0, hlen, hbytes⟩ := buffer_of_valid hv
  obtain rfl : buf0 = buf := by rw [hbuf0] at hbuf; exact Option.some.inj hbuf
  have hlt := byteIndex_lt hv hb hlen
  obtain ⟨h1, h2, h3, h4⟩ := phys_range hv hb
  obtain ⟨h5, h6⟩ := index_range hv.1 h1 h2 h3 h4
  have hrot := rotate_eq hv hb
  have hb' : 0 ≤ x ∧ x < s.width ∧ 0 ≤ y ∧ y < s.height := hb
  have hdiv : (s.phys x y).2.tdiv 8 = (s.phys x y).2 / 8 :=
    Int.tdiv_eq_ediv h3 (by norm_num)
  unfold getPixel
  rw [if_pos hb']
  simp only [hrot, hdiv, mask_eq h3]
  unfold bitAt
  unfold byteIndex at hlt ⊢
  rw [readByte_eq hbuf h5 hlt]
  simp only [test_byte]

theorem phys_inj {s : Adafruit_GrayOLED} {x y u v : Int} (hr : s.rotation < 4)
    (h : s.phys x y = s.phys u v) : x = u ∧ y = v := by
  obtain ⟨W, H, r, b, x1, y1, x2, y2⟩ := s
  simp only at hr
  interval_cases r <;> simp only [phys, rotationMap, Prod.mk.injEq] at h <;> omega

theorem inBounds_congr {s t : Adafruit_GrayOLED} (hW : t.WIDTH = s.WIDTH)
    (hH : t.HEIGHT = s.HEIGHT) (hr : t.rotation = s.rotation) (x y : Int) :
    t.InBounds x y ↔ s.InBounds x y := by
  unfold InBounds width height
  rw [hW, hH, hr]

theorem phys_congr {s t : Adafruit_GrayOLED} (hW : t.WIDTH = s.WIDTH)
    (hH : t.HEIGHT = s.HEIGHT) (hr : t.rotation = s.rotation) (x y : Int) :
    t.phys x y = s.phys x y := by
  unfold phys
  rw [hW, hH, hr]

/-- Replacing one byte of an allocated buffer by a byte keeps the display
initialised. -/
theorem valid_set {s : Adafruit_GrayOLED} (hv : s.Valid) {buf : List Nat}
    (hbuf : s.buffer = some buf) (i v : Nat) (hv256 : v < 256) (x1 y1 x2 y2 : Int) :
    Valid { s with buffer := some (buf.set i v), window_x1 := x1, window_y1 := y1,
                   window_x2 := x2, window_y2 := y2 } := by
  obtain ⟨buf0, hbuf0, hlen, hbytes⟩ := buffer_of_valid hv
  obtain rfl : buf0 = buf := by rw [hbuf0] at hbuf; exact Option.some.inj hbuf
  obtain ⟨hW, hW2, hH, hH2, hr, -⟩ := hv
  refine ⟨hW, hW2, hH, hH2, hr, ?_⟩
  show (((buf0.set i v).length : Int) = _ ∧ ∀ b ∈ buf0.set i v, b < 256)
  refine ⟨by rw [List.length_set]; exact hlen, ?_⟩
  intro b hb
  rcases List.mem_or_eq_of_mem_set hb with h | h
  · exact hbytes b h
  · rw [h]; exact hv256

/-- An in-bounds `drawPixel` on an initialised display returns, and its
result is again an initialised display of the same panel and orientation. -/
theorem drawPixel_step {s : Adafruit_GrayOLED} {x y : Int} (c : Nat) (hv : s.Valid)
    (hb : s.InBounds x y) :
    ∃ buf s', s.buffer = some buf ∧ s.drawPixel x y c = some s' ∧ s'.Valid ∧
      s'.WIDTH = s.WIDTH ∧ s'.HEIGHT = s.HEIGHT ∧ s'.rotation = s.rotation ∧
      byteIndex s.WIDTH (s.phys x y).1 (s.phys x y).2 < buf.length ∧
      buf.getD (byteIndex s.WIDTH (s.phys x y).1 (s.phys x y).2) 0 < 256 ∧
      s'.buffer = some (buf.set (byteIndex s.WIDTH (s.phys x y).1 (s.phys x y).2)
        (pixelOp c (buf.getD (byteIndex s.WIDTH (s.phys x y).1 (s.phys x y).2) 0)
          (2 ^ bitIndex (s.phys x y).2))) ∧
      s'.window_x1 = min s.window_x1 (s.phys x y).1 ∧
      s'.window_y1 = min s.window_y1 (s.phys x y).2 ∧
      s'.window_x2 = max s.window_x2 (s.phys x y).1 ∧
      s'.window_y2 = max s.window_y2 (s.phys x y).2 := by
  obtain ⟨buf, hbuf, hlen, hbytes⟩ := buffer_of_valid hv
  have hlt := byteIndex_lt hv hb hlen
  have hold : buf.getD (byteIndex s.WIDTH (s.phys x y).1 (s.phys x y).2) 0 < 256 := by
    rw [List.getD_eq_getElem buf 0 hlt]
    exact hbytes _ (List.getElem_mem _)
  refine ⟨buf, _, hbuf, drawPixel_eq c hv hb hbuf, ?_, rfl, rfl, rfl, hlt, hold, rfl, rfl,
    rfl, rfl, rfl⟩
  exact valid_set hv hbuf _ _ (pixelOp_lt hold (bitIndex_lt _)) _ _ _ _

end Adafruit_GrayOLED

theorem bitAt_set_same {buf : List Nat} {W px py : Int} (v : Nat)
    (hlt : byteIndex W px py < buf.length) :
    bitAt (buf.set (byteIndex W px py) v) W px py = v.testBit (bitIndex py) := by
  unfold bitAt
  rw [List.getD_eq_getElem _ 0 (by rw [List.length_set]; exact hlt), List.getElem_set_self]

theorem bitAt_set_other {buf : List Nat} {W px py qx qy : Int} (c : Nat) (hW : 0 < W)
    (hp1 : 0 ≤ px) (hp2 : px < W) (hq1 : 0 ≤ qx) (hq2 : qx < W) (hpy : 0 ≤ py)
    (hqy : 0 ≤ qy) (hne : ¬ (px = qx ∧ py = qy))
    (hold : buf.getD (byteIndex W qx qy) 0 < 256) :
    bitAt (buf.set (byteIndex W qx qy)
        (pixelOp c (buf.getD (byteIndex W qx qy) 0) (2 ^ bitIndex qy))) W px py
      = bitAt buf W px py := by
  unfold bitAt
  by_cases hi : byteIndex W px py = byteIndex W qx qy
  · have hbit : bitIndex py ≠ bitIndex qy := fun h =>
      hne (byte_bit_inj hW hp1 hp2 hq1 hq2 hpy hqy hi h)
    rw [hi]
    by_cases hlt : byteIndex W qx qy < buf.length
    · rw [List.getD_eq_getElem _ 0 (by rw [List.length_set]; exact hlt),
        List.getElem_set_self]
      exact pixelOp_testBit_ne hold (bitIndex_lt _) hbit
    · rw [List.set_eq_of_length_le (not_lt.mp hlt)]
  · simp only [List.getD_eq_getElem?_getD]
    rw [List.getElem?_set_ne (fun h => hi h.symm)]

namespace Adafruit_GrayOLED

/-- Changing the orientation of an initialised display keeps it
initialised. -/
theorem valid_rot {s : Adafruit_GrayOLED} (hv : s.Valid) {r : Nat} (hr : r < 4) :
    Valid { s with rotation := r } := by
  obtain ⟨hW, hW2, hH, hH2, -, hbuf⟩ := hv
  exact ⟨hW, hW2, hH, hH2, hr, hbuf⟩

theorem getPixel_outside {s : Adafruit_GrayOLED} {x y : Int}
    (h : x < 0 ∨ s.width ≤ x ∨ y < 0 ∨ s.height ≤ y) : s.getPixel x y = some false := by
  unfold getPixel
  rw [if_neg (by omega)]

theorem drawPixel_outside {s : Adafruit_GrayOLED} {x y : Int} (c : Nat)
    (h : x < 0 ∨ s.width ≤ x ∨ y < 0 ∨ s.height ≤ y) : s.drawPixel x y c = some s := by
  unfold drawPixel
  rw [if_neg (by omega)]

/-- What `clearDisplay` does to an initialised display. -/
theorem clearDisplay_eq {s : Adafruit_GrayOLED} (hv : s.Valid) :
    s.clearDisplay = some
      { s with
        buffer := some (List.replicate s.bufferSize.toNat 0)
        window_x1 := 0
        window_y1 := 0
        window_x2 := s.WIDTH - 1
        window_y2 := s.HEIGHT - 1 } := by
  obtain ⟨buf, hbuf, hlen, -⟩ := buffer_of_valid hv
  obtain ⟨hW, hW2, hH, hH2, -, -⟩ := hv
  have hn : 0 ≤ s.bufferSize := by rw [← hlen]; exact Int.ofNat_nonneg _
  have hl : s.bufferSize.toNat = buf.length := by omega
  unfold clearDisplay
  rw [hbuf]
  simp only [hn, hl, le_refl, and_self, if_true, List.drop_length, List.append_nil,
    toInt16_of_range (show -32768 ≤ s.WIDTH - 1 by omega) (show s.WIDTH - 1 ≤ 32767 by omega),
    toInt16_of_range (show -32768 ≤ s.HEIGHT - 1 by omega)
      (show s.HEIGHT - 1 ≤ 32767 by omega)]

theorem valid_cleared {s : Adafruit_GrayOLED} (hv : s.Valid) (r : Nat) (hr : r < 4)
    (x1 y1 x2 y2 : Int) :
    Valid { s with rotation := r, buffer := some (List.replicate s.bufferSize.toNat 0),
                   window_x1 := x1, window_y1 := y1, window_x2 := x2, window_y2 := y2 } := by
  obtain ⟨buf, hbuf, hlen, -⟩ := buffer_of_valid hv
  obtain ⟨hW, hW2, hH, hH2, -, -⟩ := hv
  have hn : 0 ≤ s.bufferSize := by rw [← hlen]; exact Int.ofNat_nonneg _
  refine ⟨hW, hW2, hH, hH2, hr, ?_⟩
  show (((List.replicate s.bufferSize.toNat 0).length : Int) = s.bufferSize ∧
    ∀ b ∈ List.replicate s.bufferSize.toNat 0, b < 256)
  refine ⟨by rw [List.length_replicate]; exact Int.toNat_of_nonneg hn, ?_⟩
  intro b hb
  rw [List.eq_of_mem_replicate hb]
  norm_num

theorem bitAt_replicate_zero (n : Nat) (W px py : Int) :
    bitAt (List.replicate n 0) W px py = false := by
  unfold bitAt
  have h : (List.replicate n 0).getD (byteIndex W px py) 0 = 0 := by
    rw [List.getD_eq_getElem?_getD, List.getElem?_replicate]
    split_ifs <;> rfl
  rw [h, Nat.zero_testBit]

theorem getPixel_blank {t : Adafruit_GrayOLED} (ht : t.Valid) {n : Nat}
    (hz : t.buffer = some (List.replicate n 0)) (x y : Int) :
    t.getPixel x y = some false := by
  by_cases hb : t.InBounds x y
  · rw [getPixel_eq ht hb hz, bitAt_replicate_zero]
  · exact getPixel_outside (by unfold InBounds at hb; omega)

/-- One `drawPixel` call with arbitrary arguments on an initialised display:
it returns an initialised display of the same panel, the dirty window has
only grown, and every panel point whose bit changed lies inside it. -/
theorem drawPixel_any {s : Adafruit_GrayOLED} (x y : Int) (c : Nat) (hv : s.Valid)
    {buf : List Nat} (hbuf : s.buffer = some buf) :
    ∃ s' buf', s.drawPixel x y c = some s' ∧ s'.buffer = some buf' ∧ s'.Valid ∧
      s'.WIDTH = s.WIDTH ∧ s'.HEIGHT = s.HEIGHT ∧
      s'.window_x1 ≤ s.window_x1 ∧ s'.window_y1 ≤ s.window_y1 ∧
      s.window_x2 ≤ s'.window_x2 ∧ s.window_y2 ≤ s'.window_y2 ∧
      ∀ px py, 0 ≤ px → px < s.WIDTH → 0 ≤ py → py < s.HEIGHT →
        bitAt buf s.WIDTH px py ≠ bitAt buf' s.WIDTH px py →
        s'.window_x1 ≤ px ∧ px ≤ s'.window_x2 ∧ s'.window_y1 ≤ py ∧ py ≤ s'.window_y2 := by
  by_cases hb : s.InBounds x y
  · obtain ⟨buf0, s', hbuf0, hdraw, hv', hW, hH, hr, hlt, hold, hbuf', hx1, hy1, hx2, hy2⟩ :=
      drawPixel_step c hv hb
    obtain rfl : buf0 = buf := by rw [hbuf0] at hbuf; exact Option.some.inj hbuf
    obtain ⟨p1, p2, p3, p4⟩ := phys_range hv hb
    refine ⟨s', _, hdraw, hbuf', hv', hW, hH, ?_, ?_, ?_, ?_, ?_⟩
    · rw [hx1]; exact min_le_left _ _
    · rw [hy1]; exact min_le_left _ _
    · rw [hx2]; exact le_max_left _ _
    · rw [hy2]; exact le_max_left _ _
    · intro px py hpx0 hpx1 hpy0 hpy1 hdiff
      by_cases hsame : px = (s.phys x y).1 ∧ py = (s.phys x y).2
      · rw [hx1, hx2, hy1, hy2, hsame.1, hsame.2]
        exact ⟨min_le_right _ _, le_max_right _ _, min_le_right _ _, le_max_right _ _⟩
      · exact absurd (bitAt_set_other c hv.1 hpx0 hpx1 p1 p2 hpy0 p3 hsame hold).symm hdiff
  · have hout : x < 0 ∨ s.width ≤ x ∨ y < 0 ∨ s.height ≤ y := by
      unfold InBounds at hb; omega
    refine ⟨s, buf, drawPixel_outside c hout, hbuf, hv, rfl, rfl, le_refl _, le_refl _,
      le_refl _, le_refl _, ?_⟩
    intro px py _ _ _ _ hdiff
    exact absurd rfl hdiff

/-- The invariant of a drawing session on an initialised display. -/
theorem drawAll_inv (calls : List DrawCall) :
    ∀ (s : Adafruit_GrayOLED) (buf : List Nat), s.Valid → s.buffer = some buf →
    ∃ s' buf', drawAll s calls = some s' ∧ s'.buffer = some buf' ∧ s'.Valid ∧
      s'.WIDTH = s.WIDTH ∧ s'.HEIGHT = s.HEIGHT ∧
      s'.window_x1 ≤ s.window_x1 ∧ s'.window_y1 ≤ s.window_y1 ∧
      s.window_x2 ≤ s'.window_x2 ∧ s.window_y2 ≤ s'.window_y2 ∧
      ∀ px py, 0 ≤ px → px < s.WIDTH → 0 ≤ py → py < s.HEIGHT →
        bitAt buf s.WIDTH px py ≠ bitAt buf' s.WIDTH px py →
        s'.window_x1 ≤ px ∧ px ≤ s'.window_x2 ∧ s'.window_y1 ≤ py ∧ py ≤ s'.window_y2 := by
  induction calls with
  | nil =>
    intro s buf hv hbuf
    exact ⟨s, buf, rfl, hbuf, hv, rfl, rfl, le_refl _, le_refl _, le_refl _, le_refl _,
      fun _ _ _ _ _ _ hdiff => absurd rfl hdiff⟩
  | cons c cs ih =>
    intro s buf hv hbuf
    have hvr : (s.setRotation c.rot).Valid := valid_rot hv (Nat.mod_lt _ (by norm_num))
    have hbufr : (s.setRotation c.rot).buffer = some buf := hbuf
    obtain ⟨s1, buf1, hd1, hb1, hv1, hW1, hH1, a1, a2, a3, a4, hin1⟩ :=
      drawPixel_any c.x c.y c.color hvr hbufr
    obtain ⟨s2, buf2, hd2, hb2, hv2, hW2, hH2, b1, b2, b3, b4, hin2⟩ := ih s1 buf1 hv1 hb1
    have hWs : s1.WIDTH = s.WIDTH := hW1
    have hHs : s1.HEIGHT = s.HEIGHT := hH1
    have a1' : s1.window_x1 ≤ s.window_x1 := a1
    have a2' : s1.window_y1 ≤ s.window_y1 := a2
    have a3' : s.window_x2 ≤ s1.window_x2 := a3
    have a4' : s.window_y2 ≤ s1.window_y2 := a4
    refine ⟨s2, buf2, ?_, hb2, hv2, hW2.trans hWs, hH2.trans hHs, le_trans b1 a1',
      le_trans b2 a2', le_trans a3' b3, le_trans a4' b4, ?_⟩
    · show (match (s.setRotation c.rot).drawPixel c.x c.y c.color with
        | none => none
        | some s' => drawAll s' cs) = some s2
      rw [hd1]
      exact hd2
    · intro px py hpx0 hpx1 hpy0 hpy1 hdiff
      by_cases h12 : bitAt buf1 s.WIDTH px py = bitAt buf2 s.WIDTH px py
      · have hd : bitAt buf s.WIDTH px py ≠ bitAt buf1 s.WIDTH px py := by
          rw [h12]; exact hdiff
        obtain ⟨c1, c2, c3, c4⟩ := hin1 px py hpx0 hpx1 hpy0 hpy1 hd
        exact ⟨le_trans b1 c1, le_trans c2 b3, le_trans b2 c3, le_trans c4 b4⟩
      · rw [← hWs] at h12 hpx1
        rw [← hHs] at hpy1
        exact hin2 px py hpx0 hpx1 hpy0 hpy1 h12

end Adafruit_GrayOLED

/-! ## Pixel round trip -/

open Adafruit_GrayOLED

/-- C1: on an initialised display, for every orientation and every in-bounds
logical `(x, y)` (the logical size being `(W, H)` for orientations 0 and 2 and
`(H, W)` for 1 and 3), `drawPixel(x, y, MONOOLED_WHITE)` returns and `getPixel(x, y)`
is then `true`, and `drawPixel(x, y, MONOOLED_BLACK)` returns and `getPixel(x, y)`
is then `false`. -/
theorem drawPixel_getPixel_roundtrip (s : Adafruit_GrayOLED) (x y : Int)
    (hv : s.Valid) (hx0 : 0 ≤ x) (hx1 : x < s.width) (hy0 : 0 ≤ y) (hy1 : y < s.height) :
    ((s.width, s.height) =
        if s.rotation = 0 ∨ s.rotation = 2 then (s.WIDTH, s.HEIGHT)
        else (s.HEIGHT, s.WIDTH)) ∧
    (∃ s', s.drawPixel x y MONOOLED_WHITE = some s' ∧ s'.getPixel x y = some true) ∧
    (∃ s', s.drawPixel x y MONOOLED_BLACK = some s' ∧ s'.getPixel x y = some false) := by
  have hb : s.InBounds x y := ⟨hx0, hx1, hy0, hy1⟩
  refine ⟨?_, ?_, ?_⟩
  · have hr := hv.2.2.2.2.1
    obtain ⟨W, H, r, b, x1, y1, x2, y2⟩ := s
    simp only at hr
    interval_cases r <;> simp [width, height]
  · obtain ⟨buf, s', hbuf, hdraw, hv', hW, hH, hr, hlt, hold, hbuf', -⟩ :=
      drawPixel_step MONOOLED_WHITE hv hb
    refine ⟨s', hdraw, ?_⟩
    rw [getPixel_eq hv' ((inBounds_congr hW hH hr x y).mpr hb) hbuf',
      phys_congr hW hH hr, hW, bitAt_set_same _ hlt]
    exact congrArg some (pixelOp_testBit_white _ _)
  · obtain ⟨buf, s', hbuf, hdraw, hv', hW, hH, hr, hlt, hold, hbuf', -⟩ :=
      drawPixel_step MONOOLED_BLACK hv hb
    refine ⟨s', hdraw, ?_⟩
    rw [getPixel_eq hv' ((inBounds_congr hW hH hr x y).mpr hb) hbuf',
      phys_congr hW hH hr, hW, bitAt_set_same _ hlt]
    exact congrArg some (pixelOp_testBit_black hold (bitIndex_lt _))

/-- Witness of C1: the 5×12 panel in orientation 1 at logical `(11, 4)`. -/
theorem drawPixel_getPixel_roundtrip_witness :
    (panel5x12 1).Valid ∧ (0 : Int) ≤ 11 ∧ (11 : Int) < (panel5x12 1).width ∧
      (0 : Int) ≤ 4 ∧ (4 : Int) < (panel5x12 1).height ∧
      (((panel5x12 1).width, (panel5x12 1).height) =
        if (panel5x12 1).rotation = 0 ∨ (panel5x12 1).rotation = 2
        then ((panel5x12 1).WIDTH, (panel5x12 1).HEIGHT)
        else ((panel5x12 1).HEIGHT, (panel5x12 1).WIDTH)) ∧
      (∃ s', (panel5x12 1).drawPixel 11 4 MONOOLED_WHITE = some s' ∧
        s'.getPixel 11 4 = some true) ∧
      (∃ s', (panel5x12 1).drawPixel 11 4 MONOOLED_BLACK = some s' ∧
        s'.getPixel 11 4 = some false) :=
  ⟨by decide, by decide, by decide, by decide, by decide,
    drawPixel_getPixel_roundtrip (panel5x12 1) 11 4 (by decide) (by decide) (by decide)
      (by decide) (by decide)⟩

/-! ## Byte and bit layout of a pixel write -/

/-- C2: an in-bounds `drawPixel(x, y, c)` with `c` white, black or inverse,
whose rotated physical point is `(x', y')`, returns; with `i = x' + (y'/8)*W`
and `m = 2^(y' mod 8)` the new buffer is the old one with byte `i` replaced by
`old[i] OR m` (white), `old[i] AND NOT m` (black) or `old[i] XOR m` (inverse);
every other byte and the buffer length are unchanged. -/
theorem drawPixel_byte_layout (s : Adafruit_GrayOLED) (x y : Int) (c : Nat)
    (hv : s.Valid) (hx0 : 0 ≤ x) (hx1 : x < s.width) (hy0 : 0 ≤ y) (hy1 : y < s.height)
    (hc : c = MONOOLED_WHITE ∨ c = MONOOLED_BLACK ∨ c = MONOOLED_INVERSE) :
    ∃ buf buf' s' old, s.buffer = some buf ∧ s.drawPixel x y c = some s' ∧
      s'.buffer = some buf' ∧
      buf[byteIndex s.WIDTH (rotationMap s.rotation s.WIDTH s.HEIGHT x y).1
        (rotationMap s.rotation s.WIDTH s.HEIGHT x y).2]? = some old ∧
      buf' = buf.set
        (byteIndex s.WIDTH (rotationMap s.rotation s.WIDTH s.HEIGHT x y).1
          (rotationMap s.rotation s.WIDTH s.HEIGHT x y).2)
        (if c = MONOOLED_WHITE then
            old ||| 2 ^ bitIndex (rotationMap s.rotation s.WIDTH s.HEIGHT x y).2
          else if c = MONOOLED_BLACK then
            old &&& (255 - 2 ^ bitIndex (rotationMap s.rotation s.WIDTH s.HEIGHT x y).2)
          else old ^^^ 2 ^ bitIndex (rotationMap s.rotation s.WIDTH s.HEIGHT x y).2) ∧
      buf'.length = buf.length ∧
      ∀ j, j ≠ byteIndex s.WIDTH (rotationMap s.rotation s.WIDTH s.HEIGHT x y).1
          (rotationMap s.rotation s.WIDTH s.HEIGHT x y).2 → buf'[j]? = buf[j]? := by
  have hb : s.InBounds x y := ⟨hx0, hx1, hy0, hy1⟩
  obtain ⟨buf, s', hbuf, hdraw, -, -, -, -, hlt, -, hbuf', -⟩ := drawPixel_step c hv hb
  refine ⟨buf, _, s', _, hbuf, hdraw, hbuf', List.getElem?_eq_getElem hlt, ?_, ?_, ?_⟩
  · have e : rotationMap s.rotation s.WIDTH s.HEIGHT x y = s.phys x y := rfl
    simp only [e]
    rw [List.getD_eq_getElem buf 0 hlt]
    rcases hc with rfl | rfl | rfl <;> rfl
  · exact List.length_set _ _ _
  · intro j hj
    exact List.getElem?_set_ne (fun h => hj h.symm)

/-- Witness of C2: toggling logical `(1, 2)` on the 5×12 panel in
orientation 2. -/
theorem drawPixel_byte_layout_witness :
    ∃ buf buf' s' old, (panel5x12 2).buffer = some buf ∧
      (panel5x12 2).drawPixel 1 2 MONOOLED_INVERSE = some s' ∧
      s'.buffer = some buf' ∧
      buf[byteIndex 5 (rotationMap 2 5 12 1 2).1 (rotationMap 2 5 12 1 2).2]? = some old ∧
      buf' = buf.set (byteIndex 5 (rotationMap 2 5 12 1 2).1 (rotationMap 2 5 12 1 2).2)
        (if MONOOLED_INVERSE = MONOOLED_WHITE then
            old ||| 2 ^ bitIndex (rotationMap 2 5 12 1 2).2
          else if MONOOLED_INVERSE = MONOOLED_BLACK then
            old &&& (255 - 2 ^ bitIndex (rotationMap 2 5 12 1 2).2)
          else old ^^^ 2 ^ bitIndex (rotationMap 2 5 12 1 2).2) ∧
      buf'.length = buf.length ∧
      ∀ j, j ≠ byteIndex 5 (rotationMap 2 5 12 1 2).1 (rotationMap 2 5 12 1 2).2 →
        buf'[j]? = buf[j]? :=
  drawPixel_byte_layout (panel5x12 2) 1 2 MONOOLED_INVERSE (by decide) (by decide)
    (by decide) (by decide) (by decide) (by decide)

/-! ## The rotation table -/

/-- C3: for every orientation and in-bounds logical `(x, y)`, the physical
point `(x', y')` is the documented table entry (`(x, y)`, `(W-1-y, x)`,
`(W-1-x, H-1-y)`, `(y, H-1-x)` for orientations 0, 1, 2, 3), the XOR swap
exchanges the two coordinates, `drawPixel(x, y, c)` leaves the same buffer
and dirty window as `drawPixel(x', y', c)` in orientation 0, and
`getPixel(x, y)` equals `getPixel(x', y')` in orientation 0. -/
theorem rotation_table_refinement (s : Adafruit_GrayOLED) (x y : Int) (c : Nat)
    (hv : s.Valid) (hx0 : 0 ≤ x) (hx1 : x < s.width) (hy0 : 0 ≤ y) (hy1 : y < s.height) :
    (rotationMap s.rotation s.WIDTH s.HEIGHT x y =
      if s.rotation = 0 then (x, y)
      else if s.rotation = 1 then (s.WIDTH - 1 - y, x)
      else if s.rotation = 2 then (s.WIDTH - 1 - x, s.HEIGHT - 1 - y)
      else (y, s.HEIGHT - 1 - x)) ∧
    grayoled_swap x y = (y, x) ∧
    (∃ s' t', s.drawPixel x y c = some s' ∧
      drawPixel { s with rotation := 0 }
        (rotationMap s.rotation s.WIDTH s.HEIGHT x y).1
        (rotationMap s.rotation s.WIDTH s.HEIGHT x y).2 c = some t' ∧
      s'.buffer = t'.buffer ∧ s'.window_x1 = t'.window_x1 ∧ s'.window_y1 = t'.window_y1 ∧
      s'.window_x2 = t'.window_x2 ∧ s'.window_y2 = t'.window_y2) ∧
    (∃ b, s.getPixel x y = some b ∧
      getPixel { s with rotation := 0 }
        (rotationMap s.rotation s.WIDTH s.HEIGHT x y).1
        (rotationMap s.rotation s.WIDTH s.HEIGHT x y).2 = some b) := by
  have hb : s.InBounds x y := ⟨hx0, hx1, hy0, hy1⟩
  have hv0 : Valid { s with rotation := 0 } := valid_rot hv (by norm_num)
  obtain ⟨h1, h2, h3, h4⟩ := phys_range hv hb
  have hb0 : InBounds { s with rotation := 0 } (s.phys x y).1 (s.phys x y).2 :=
    ⟨h1, h2, h3, h4⟩
  have hp0 : phys { s with rotation := 0 } (s.phys x y).1 (s.phys x y).2 = s.phys x y := rfl
  obtain ⟨buf, hbuf, -, -⟩ := buffer_of_valid hv
  have hbuf0 : Adafruit_GrayOLED.buffer { s with rotation := 0 } = some buf := hbuf
  have hr := hv.2.2.2.2.1
  have hxy : 0 ≤ x ∧ x ≤ 32767 ∧ 0 ≤ y ∧ y ≤ 32767 := by
    obtain ⟨hW, hW2, hH, hH2, -, -⟩ := hv
    obtain ⟨W, H, r, b, x1, y1, x2, y2⟩ := s
    simp only at hr hW hW2 hH hH2
    interval_cases r <;> simp only [width, height] at hx1 hy1 <;> omega
  refine ⟨?_, grayoled_swap_eq hxy.1 hxy.2.1 hxy.2.2.1 hxy.2.2.2, ?_, ?_⟩
  · obtain ⟨W, H, r, b, x1, y1, x2, y2⟩ := s
    simp only at hr
    interval_cases r <;> simp [rotationMap]
  · refine ⟨_, _, drawPixel_eq c hv hb hbuf, drawPixel_eq c hv0 hb0 hbuf0, ?_⟩
    rw [hp0]
    exact ⟨rfl, rfl, rfl, rfl, rfl⟩
  · refine ⟨_, getPixel_eq hv hb hbuf, ?_⟩
    have h := getPixel_eq hv0 hb0 hbuf0
    rw [hp0] at h
    exact h

/-- Witness of C3: logical `(3, 1)` on the 5×12 panel in orientation 3. -/
theorem rotation_table_refinement_witness :
    (panel5x12 3).Valid ∧ rotationMap 3 5 12 3 1 = (1, 8) ∧
    grayoled_swap 3 1 = (1, 3) ∧
    (∃ s' t', (panel5x12 3).drawPixel 3 1 MONOOLED_WHITE = some s' ∧
      drawPixel { panel5x12 3 with rotation := 0 } 1 8 MONOOLED_WHITE = some t' ∧
      s'.buffer = t'.buffer ∧ s'.window_x1 = t'.window_x1 ∧ s'.window_y1 = t'.window_y1 ∧
      s'.window_x2 = t'.window_x2 ∧ s'.window_y2 = t'.window_y2) ∧
    (∃ b, (panel5x12 3).getPixel 3 1 = some b ∧
      getPixel { panel5x12 3 with rotation := 0 } 1 8 = some b) :=
  ⟨by decide,
    rotation_table_refinement (panel5x12 3) 3 1 MONOOLED_WHITE (by decide) (by decide)
      (by decide) (by decide) (by decide)⟩

/-! ## Frame of a pixel write -/

/-- C4: an in-bounds `drawPixel(x, y, c)` of any colour returns and leaves
`getPixel(u, v)` unchanged at every other in-bounds logical `(u, v)`; the two
points address distinct bits of the buffer. -/
theorem drawPixel_frame (s : Adafruit_GrayOLED) (x y u v : Int) (c : Nat)
    (hv : s.Valid) (hx0 : 0 ≤ x) (hx1 : x < s.width) (hy0 : 0 ≤ y) (hy1 : y < s.height)
    (hu0 : 0 ≤ u) (hu1 : u < s.width) (hv0 : 0 ≤ v) (hv1 : v < s.height)
    (hne : ¬ (u = x ∧ v = y)) :
    (∃ s' b, s.drawPixel x y c = some s' ∧ s.getPixel u v = some b ∧
      s'.getPixel u v = some b) ∧
    ¬ (byteIndex s.WIDTH (rotationMap s.rotation s.WIDTH s.HEIGHT u v).1
          (rotationMap s.rotation s.WIDTH s.HEIGHT u v).2 =
        byteIndex s.WIDTH (rotationMap s.rotation s.WIDTH s.HEIGHT x y).1
          (rotationMap s.rotation s.WIDTH s.HEIGHT x y).2 ∧
      bitIndex (rotationMap s.rotation s.WIDTH s.HEIGHT u v).2 =
        bitIndex (rotationMap s.rotation s.WIDTH s.HEIGHT x y).2) := by
  have hb : s.InBounds x y := ⟨hx0, hx1, hy0, hy1⟩
  have hb2 : s.InBounds u v := ⟨hu0, hu1, hv0, hv1⟩
  obtain ⟨p1, p2, p3, p4⟩ := phys_range hv hb
  obtain ⟨q1, q2, q3, q4⟩ := phys_range hv hb2
  have hpne : ¬ ((s.phys u v).1 = (s.phys x y).1 ∧ (s.phys u v).2 = (s.phys x y).2) := by
    intro h
    exact hne (phys_inj hv.2.2.2.2.1 (Prod.ext h.1 h.2))
  constructor
  · obtain ⟨buf, s', hbuf, hdraw, hv', hW, hH, hr, hlt, hold, hbuf', -⟩ :=
      drawPixel_step c hv hb
    refine ⟨s', _, hdraw, getPixel_eq hv hb2 hbuf, ?_⟩
    rw [getPixel_eq hv' ((inBounds_congr hW hH hr u v).mpr hb2) hbuf',
      phys_congr hW hH hr, hW,
      bitAt_set_other c hv.1 q1 q2 p1 p2 q3 p3 hpne hold]
  · intro h
    exact hpne (byte_bit_inj hv.1 q1 q2 p1 p2 q3 p3 h.1 h.2)

/-- Witness of C4: writing logical `(11, 4)` and reading `(9, 4)`, which
share byte 5 (bits 3 and 1), on the 5×12 panel in orientation 1. -/
theorem drawPixel_frame_witness :
    (panel5x12 1).Valid ∧
    (∃ s' b, (panel5x12 1).drawPixel 11 4 MONOOLED_INVERSE = some s' ∧
      (panel5x12 1).getPixel 9 4 = some b ∧ s'.getPixel 9 4 = some b) ∧
    ¬ (byteIndex 5 (rotationMap 1 5 12 9 4).1 (rotationMap 1 5 12 9 4).2 =
        byteIndex 5 (rotationMap 1 5 12 11 4).1 (rotationMap 1 5 12 11 4).2 ∧
      bitIndex (rotationMap 1 5 12 9 4).2 = bitIndex (rotationMap 1 5 12 11 4).2) :=
  ⟨by decide,
    drawPixel_frame (panel5x12 1) 11 4 9 4 MONOOLED_INVERSE (by decide) (by decide)
      (by decide) (by decide) (by decide) (by decide) (by decide) (by decide) (by decide)
      (by decide)⟩

/-! ## Toggle -/

/-- C5: for every orientation, buffer content and in-bounds logical `(x, y)`,
two calls of `drawPixel(x, y, MONOOLED_INVERSE)` both return and leave the buffer
equal to the buffer before them, so `getPixel(x, y)` returns its original
value. -/
theorem toggle_twice_restores (s : Adafruit_GrayOLED) (x y : Int)
    (hv : s.Valid) (hx0 : 0 ≤ x) (hx1 : x < s.width) (hy0 : 0 ≤ y) (hy1 : y < s.height) :
    ∃ s1 s2 b, s.drawPixel x y MONOOLED_INVERSE = some s1 ∧
      s1.drawPixel x y MONOOLED_INVERSE = some s2 ∧ s2.buffer = s.buffer ∧
      s.getPixel x y = some b ∧ s2.getPixel x y = some b := by
  have hb : s.InBounds x y := ⟨hx0, hx1, hy0, hy1⟩
  obtain ⟨buf, s1, hbuf, hdraw1, hval1, hW1, hH1, hr1, hlt, hold, hbuf1, -⟩ :=
    drawPixel_step MONOOLED_INVERSE hv hb
  have hb1 : s1.InBounds x y := (inBounds_congr hW1 hH1 hr1 x y).mpr hb
  obtain ⟨buf1, s2, hbuf1', hdraw2, hval2, hW2, hH2, hr2, hlt2, -, hbuf2, -⟩ :=
    drawPixel_step MONOOLED_INVERSE hval1 hb1
  have hb2 : s2.InBounds x y := (inBounds_congr hW2 hH2 hr2 x y).mpr hb1
  have hsame : s2.buffer = s.buffer := by
    rw [hbuf2, hbuf]
    rw [hbuf1] at hbuf1'
    obtain rfl := Option.some.inj hbuf1'
    rw [phys_congr hW1 hH1 hr1, hW1, List.set_set,
      List.getD_eq_getElem _ 0 (by rw [List.length_set]; exact hlt),
      List.getElem_set_self]
    show some (buf.set _ ((_ ^^^ _) ^^^ _)) = some buf
    rw [Nat.xor_cancel_right, List.getD_eq_getElem buf 0 hlt, list_set_self _ _ hlt]
  refine ⟨s1, s2, _, hdraw1, hdraw2, hsame, getPixel_eq hv hb hbuf, ?_⟩
  rw [getPixel_eq hval2 hb2 (hsame.trans hbuf), phys_congr hW2 hH2 hr2,
    phys_congr hW1 hH1 hr1, hW2, hW1]

/-- Witness of C5: toggling logical `(4, 9)` twice on the 5×12 panel in
orientation 0. -/
theorem toggle_twice_restores_witness :
    (panel5x12 0).Valid ∧
    ∃ s1 s2 b, (panel5x12 0).drawPixel 4 9 MONOOLED_INVERSE = some s1 ∧
      s1.drawPixel 4 9 MONOOLED_INVERSE = some s2 ∧ s2.buffer = (panel5x12 0).buffer ∧
      (panel5x12 0).getPixel 4 9 = some b ∧ s2.getPixel 4 9 = some b :=
  ⟨by decide,
    toggle_twice_restores (panel5x12 0) 4 9 (by decide) (by decide) (by decide)
      (by decide) (by decide)⟩

/-! ## Out-of-bounds coordinates -/

/-- C6: for every state (any orientation, any buffer, any dirty window) and
colour, `drawPixel(x, y, c)` with `x < 0`, `x >= width()`, `y < 0` or
`y >= height()` returns the state unchanged, so the buffer and the four
dirty-window bounds are unchanged; in particular for `drawPixel(-1, 0, WHITE)`
and `drawPixel(width(), 0, WHITE)`. -/
theorem drawPixel_out_of_bounds_ignored (s : Adafruit_GrayOLED) (x y : Int) (c : Nat)
    (h : x < 0 ∨ s.width ≤ x ∨ y < 0 ∨ s.height ≤ y) :
    s.drawPixel x y c = some s ∧
    s.drawPixel (-1) 0 MONOOLED_WHITE = some s ∧
    s.drawPixel s.width 0 MONOOLED_WHITE = some s :=
  ⟨drawPixel_outside c h, drawPixel_outside _ (Or.inl (by norm_num)),
    drawPixel_outside _ (Or.inr (Or.inl (le_refl _)))⟩

/-- Witness of C6: logical `(3, 5)` is below the 12×5 logical area of the
5×12 panel in orientation 1. -/
theorem drawPixel_out_of_bounds_ignored_witness :
    ((3 : Int) < 0 ∨ (panel5x12 1).width ≤ 3 ∨ (5 : Int) < 0 ∨ (panel5x12 1).height ≤ 5) ∧
    (panel5x12 1).drawPixel 3 5 MONOOLED_INVERSE = some (panel5x12 1) ∧
    (panel5x12 1).drawPixel (-1) 0 MONOOLED_WHITE = some (panel5x12 1) ∧
    (panel5x12 1).drawPixel (panel5x12 1).width 0 MONOOLED_WHITE = some (panel5x12 1) :=
  ⟨by decide, drawPixel_out_of_bounds_ignored (panel5x12 1) 3 5 MONOOLED_INVERSE (by decide)⟩

/-- C7: `getPixel(x, y)` with `x < 0`, `x >= width()`, `y < 0` or
`y >= height()` returns `false` whatever the buffer pointer holds, `NULL`
included (no byte is read); for in-bounds `(x, y)` on an initialised display
it returns the value of the addressed bit. -/
theorem getPixel_bounds (s : Adafruit_GrayOLED) (x y : Int) :
    ((x < 0 ∨ s.width ≤ x ∨ y < 0 ∨ s.height ≤ y) →
      ∀ b : Option (List Nat), getPixel { s with buffer := b } x y = some false) ∧
    (s.Valid → 0 ≤ x → x < s.width → 0 ≤ y → y < s.height →
      ∃ buf, s.buffer = some buf ∧
        s.getPixel x y = some (bitAt buf s.WIDTH
          (rotationMap s.rotation s.WIDTH s.HEIGHT x y).1
          (rotationMap s.rotation s.WIDTH s.HEIGHT x y).2)) := by
  constructor
  · intro h b
    exact getPixel_outside h
  · intro hv hx0 hx1 hy0 hy1
    obtain ⟨buf, hbuf, -, -⟩ := buffer_of_valid hv
    exact ⟨buf, hbuf, getPixel_eq hv ⟨hx0, hx1, hy0, hy1⟩ hbuf⟩

/-- Witness of C7: on the 5×12 panel in orientation 2, `(5, 0)` is out of
bounds and `(2, 3)` is in bounds. -/
theorem getPixel_bounds_witness :
    (∀ b : Option (List Nat), getPixel { panel5x12 2 with buffer := b } 5 0 = some false) ∧
    (∃ buf, (panel5x12 2).buffer = some buf ∧
      (panel5x12 2).getPixel 2 3 = some (bitAt buf 5 (rotationMap 2 5 12 2 3).1
        (rotationMap 2 5 12 2 3).2)) :=
  ⟨(getPixel_bounds (panel5x12 2) 5 0).1 (by decide),
    (getPixel_bounds (panel5x12 2) 2 3).2 (by decide) (by decide) (by decide) (by decide)
      (by decide)⟩

/-! ## Clearing the display -/

/-- C8: on an initialised display `clearDisplay()` returns; afterwards the
buffer has its allocated length and every byte is zero, `getPixel(x, y)` is
`false` for every `(x, y)` under every orientation, and the dirty window is
`(0, 0, W-1, H-1)`. -/
theorem clearDisplay_post (s : Adafruit_GrayOLED) (hv : s.Valid) :
    ∃ s' buf', s.clearDisplay = some s' ∧ s'.buffer = some buf' ∧
      (buf'.length : Int) = s.WIDTH * ((s.HEIGHT + 7) / 8) ∧ (∀ b ∈ buf', b = 0) ∧
      (∀ r, r < 4 → ∀ x y, getPixel { s' with rotation := r } x y = some false) ∧
      (s'.window_x1, s'.window_y1, s'.window_x2, s'.window_y2) =
        (0, 0, s.WIDTH - 1, s.HEIGHT - 1) ∧
      s'.WIDTH = s.WIDTH ∧ s'.HEIGHT = s.HEIGHT ∧ s'.rotation = s.rotation := by
  obtain ⟨buf, hbuf, hlen, -⟩ := buffer_of_valid hv
  have hn : 0 ≤ s.bufferSize := by rw [← hlen]; exact Int.ofNat_nonneg _
  have hsz : s.bufferSize = s.WIDTH * ((s.HEIGHT + 7) / 8) := by
    unfold bufferSize
    rw [Int.tdiv_eq_ediv (by have := hv.2.2.1; omega) (by norm_num)]
  refine ⟨_, _, clearDisplay_eq hv, rfl, ?_, ?_, ?_, rfl, rfl, rfl, rfl⟩
  · rw [List.length_replicate, Int.toNat_of_nonneg hn, hsz]
  · intro b hb
    exact List.eq_of_mem_replicate hb
  · intro r hr x y
    exact getPixel_blank (valid_cleared hv r hr 0 0 (s.WIDTH - 1) (s.HEIGHT - 1)) rfl x y

/-- Witness of C8: clearing the patterned 5×12 panel. -/
theorem clearDisplay_post_witness :
    (panel5x12 3).Valid ∧
    ∃ s' buf', (panel5x12 3).clearDisplay = some s' ∧ s'.buffer = some buf' ∧
      (buf'.length : Int) = 5 * ((12 + 7) / 8) ∧ (∀ b ∈ buf', b = 0) ∧
      (∀ r, r < 4 → ∀ x y, getPixel { s' with rotation := r } x y = some false) ∧
      (s'.window_x1, s'.window_y1, s'.window_x2, s'.window_y2) = (0, 0, 5 - 1, 12 - 1) ∧
      s'.WIDTH = 5 ∧ s'.HEIGHT = 12 ∧ s'.rotation = 3 :=
  ⟨by decide, clearDisplay_post (panel5x12 3) (by decide)⟩

/-! ## The dirty window -/

/-- C9: from every initialised display and for every finite sequence of
`drawPixel` calls (arbitrary coordinates, colours and orientation at each
call) the sequence returns, and every point `(px, py)` of the panel whose bit
(byte `px + (py/8)*W`, bit `py mod 8`) differs between the initial and the
final buffer satisfies `window_x1 <= px <= window_x2` and
`window_y1 <= py <= window_y2` in the final window. -/
theorem dirty_window_invariant (s : Adafruit_GrayOLED) (calls : List DrawCall)
    (hv : s.Valid) :
    ∃ s' buf buf', drawAll s calls = some s' ∧ s.buffer = some buf ∧
      s'.buffer = some buf' ∧
      ∀ px py, 0 ≤ px → px < s.WIDTH → 0 ≤ py → py < s.HEIGHT →
        bitAt buf s.WIDTH px py ≠ bitAt buf' s.WIDTH px py →
        s'.window_x1 ≤ px ∧ px ≤ s'.window_x2 ∧ s'.window_y1 ≤ py ∧ py ≤ s'.window_y2 := by
  obtain ⟨buf, hbuf, -, -⟩ := buffer_of_valid hv
  obtain ⟨s', buf', hd, hb', -, -, -, -, -, -, -, hin⟩ := drawAll_inv calls s buf hv hbuf
  exact ⟨s', buf, buf', hd, hbuf, hb', hin⟩

/-- Witness of C9: four calls under three orientations on the blank 16×8
panel, one of them out of bounds and one with an unknown colour. -/
theorem dirty_window_invariant_witness :
    (panel16x8 0).Valid ∧
    ∃ s' buf buf',
      drawAll (panel16x8 0) [⟨0, 2, 3, 1⟩, ⟨1, 7, 15, 2⟩, ⟨2, 16, 0, 1⟩, ⟨3, 4, 4, 9⟩] = some s' ∧
      (panel16x8 0).buffer = some buf ∧ s'.buffer = some buf' ∧
      ∀ px py, 0 ≤ px → px < (16 : Int) → 0 ≤ py → py < (8 : Int) →
        bitAt buf 16 px py ≠ bitAt buf' 16 px py →
        s'.window_x1 ≤ px ∧ px ≤ s'.window_x2 ∧ s'.window_y1 ≤ py ∧ py ≤ s'.window_y2 :=
  ⟨by decide, dirty_window_invariant (panel16x8 0) _ (by decide)⟩

/-- C10: an in-bounds `drawPixel` mapping to physical `(x', y')` returns and
turns the window `(x1, y1, x2, y2)` into
`(min(x1,x'), min(y1,y'), max(x2,x'), max(y2,y'))`, so the window never
shrinks; and on a non-rotated 16×8 panel whose window holds nothing pending,
`drawPixel(2,3,WHITE)` then `drawPixel(10,1,WHITE)` leaves the window
`(2, 1, 10, 3)`. -/
theorem dirty_window_expansion (s : Adafruit_GrayOLED) (x y : Int) (c : Nat)
    (hv : s.Valid) (hx0 : 0 ≤ x) (hx1 : x < s.width) (hy0 : 0 ≤ y) (hy1 : y < s.height) :
    (∃ s', s.drawPixel x y c = some s' ∧
      (s'.window_x1, s'.window_y1, s'.window_x2, s'.window_y2) =
        (min s.window_x1 (rotationMap s.rotation s.WIDTH s.HEIGHT x y).1,
         min s.window_y1 (rotationMap s.rotation s.WIDTH s.HEIGHT x y).2,
         max s.window_x2 (rotationMap s.rotation s.WIDTH s.HEIGHT x y).1,
         max s.window_y2 (rotationMap s.rotation s.WIDTH s.HEIGHT x y).2) ∧
      s'.window_x1 ≤ s.window_x1 ∧ s'.window_y1 ≤ s.window_y1 ∧
      s.window_x2 ≤ s'.window_x2 ∧ s.window_y2 ≤ s'.window_y2) ∧
    (s.WIDTH = 16 → s.HEIGHT = 8 → s.rotation = 0 → WindowEmpty s →
      ∃ s1 s2, s.drawPixel 2 3 MONOOLED_WHITE = some s1 ∧
        s1.drawPixel 10 1 MONOOLED_WHITE = some s2 ∧
        (s2.window_x1, s2.window_y1, s2.window_x2, s2.window_y2) = (2, 1, 10, 3)) := by
  constructor
  · obtain ⟨buf, s', -, hdraw, -, -, -, -, -, -, -, h1, h2, h3, h4⟩ :=
      drawPixel_step c hv ⟨hx0, hx1, hy0, hy1⟩
    refine ⟨s', hdraw, ?_, ?_, ?_, ?_, ?_⟩
    · rw [h1, h2, h3, h4]; rfl
    · rw [h1]; exact min_le_left _ _
    · rw [h2]; exact min_le_left _ _
    · rw [h3]; exact le_max_left _ _
    · rw [h4]; exact le_max_left _ _
  · intro hW hH hr hempty
    have hwd : s.width = 16 := by unfold width; rw [hr]; exact hW
    have hht : s.height = 8 := by unfold height; rw [hr]; exact hH
    have hbA : s.InBounds 2 3 := by unfold InBounds; rw [hwd, hht]; norm_num
    obtain ⟨bufA, s1, -, hdrawA, hvA, hWA, hHA, hrA, -, -, -, a1, a2, a3, a4⟩ :=
      drawPixel_step MONOOLED_WHITE hv hbA
    have hbB : s1.InBounds 10 1 := by
      rw [inBounds_congr hWA hHA hrA]; unfold InBounds; rw [hwd, hht]; norm_num
    obtain ⟨bufB, s2, -, hdrawB, -, -, -, -, -, -, -, b1, b2, b3, b4⟩ :=
      drawPixel_step MONOOLED_WHITE hvA hbB
    have hpA : s.phys 2 3 = (2, 3) := by unfold phys; rw [hr]; rfl
    have hpB : s1.phys 10 1 = (10, 1) := by unfold phys; rw [hrA, hr]; rfl
    rw [hpA] at a1 a2 a3 a4
    rw [hpB] at b1 b2 b3 b4
    obtain ⟨e1, e2, e3, e4⟩ := hempty
    rw [hW] at e1
    rw [hH] at e2
    refine ⟨s1, s2, hdrawA, hdrawB, ?_⟩
    simp only [Prod.mk.injEq]
    simp only [] at a1 a2 a3 a4 b1 b2 b3 b4
    omega

/-- Witness of C10: the blank 16×8 panel with the window `(1024, 1024, -1, -1)`. -/
theorem dirty_window_expansion_witness :
    (panel16x8 0).Valid ∧ WindowEmpty (panel16x8 0) ∧
    (∃ s', (panel16x8 0).drawPixel 2 3 MONOOLED_WHITE = some s' ∧
      (s'.window_x1, s'.window_y1, s'.window_x2, s'.window_y2) =
        (min 1024 2, min 1024 3, max (-1) 2, max (-1) 3) ∧
      s'.window_x1 ≤ 1024 ∧ s'.window_y1 ≤ 1024 ∧ -1 ≤ s'.window_x2 ∧ -1 ≤ s'.window_y2) ∧
    ∃ s1 s2, (panel16x8 0).drawPixel 2 3 MONOOLED_WHITE = some s1 ∧
      s1.drawPixel 10 1 MONOOLED_WHITE = some s2 ∧
      (s2.window_x1, s2.window_y1, s2.window_x2, s2.window_y2) = (2, 1, 10, 3) :=
  ⟨by decide, by decide,
    (dirty_window_expansion (panel16x8 0) 2 3 MONOOLED_WHITE (by decide) (by decide)
      (by decide) (by decide) (by decide)).1,
    (dirty_window_expansion (panel16x8 0) 2 3 MONOOLED_WHITE (by decide) (by decide)
      (by decide) (by decide) (by decide)).2 rfl rfl rfl (by decide)⟩

/-! ## Bus framing -/

namespace GrayOLEDBus

theorem send_cmd_eq (o : GrayOLEDBus) (c : Nat) :
    o.send_cmd c =
      ⟨o.oled, ⟨o.i2cDevice.writes ++ [commandFrame c], o.i2cDevice.fails⟩⟩ := rfl

/-- The loop of `send_cmd_list` from index `i` with `left` iterations to go
returns when the array holds `i + left` bytes, and appends one command frame
per byte, in order, whatever the transport answers. -/
theorem send_cmd_list_from_eq (buf : List Nat) :
    ∀ (left i : Nat) (o : GrayOLEDBus), i + left ≤ buf.length →
      send_cmd_list_from buf i left o = some
        ⟨o.oled, ⟨o.i2cDevice.writes ++ ((buf.drop i).take left).map commandFrame,
          o.i2cDevice.fails⟩⟩ := by
  intro left
  induction left with
  | zero =>
    intro i o _
    simp [send_cmd_list_from]
  | succ left ih =>
    intro i o h
    have hi : i < buf.length := by omega
    have hd : buf.drop i = buf[i] :: buf.drop (i + 1) := List.drop_eq_getElem_cons hi
    unfold send_cmd_list_from
    rw [List.getElem?_eq_getElem hi]
    simp only []
    rw [ih (i + 1) (o.send_cmd buf[i]) (by omega), send_cmd_eq, hd]
    simp only [List.take_succ_cons, List.map_cons, List.append_assoc, List.singleton_append]

theorem send_cmd_list_eq (o : GrayOLEDBus) (buf : List Nat) (num : Nat)
    (h : num ≤ buf.length) :
    o.send_cmd_list buf num = some
      ⟨o.oled, ⟨o.i2cDevice.writes ++ (buf.take num).map commandFrame,
        o.i2cDevice.fails⟩⟩ := by
  unfold send_cmd_list
  rw [send_cmd_list_from_eq buf num 0 o (by omega), List.drop_zero]

end GrayOLEDBus

theorem frames_getElem? (ws : List (List Nat)) (buf : List Nat) (num j : Nat)
    (hnum : num ≤ buf.length) (hj : j < num) :
    (ws ++ (buf.take num).map commandFrame)[ws.length + j]? =
      some (commandFrame (buf.getD j 0)) := by
  have hjl : j < buf.length := by omega
  rw [List.getElem?_append_right (by omega), Nat.add_sub_cancel_left,
    List.getElem?_map, List.getElem?_take_of_lt hj, List.getElem?_eq_getElem hjl,
    List.getD_eq_getElem buf 0 hjl]
  rfl

open GrayOLEDBus

/-- C11: `send_cmd(c)` issues exactly one bus write, with bytes `[0x80, c]`
(`send_cmd(0xAE)` writes `[0x80, 0xAE]`), and `send_cmd_list(buf, num)` on an
array of at least `num` bytes returns after exactly `num` writes,
`[0x80, buf[0]]`, ..., `[0x80, buf[num-1]]`, in that order, and nothing else;
neither touches the display members. -/
theorem command_framing (o : GrayOLEDBus) (c : Nat) (buf : List Nat) (num : Nat)
    (hnum : num ≤ buf.length) :
    (o.send_cmd c).i2cDevice.writes = o.i2cDevice.writes ++ [[0x80, c]] ∧
    (o.send_cmd 0xAE).i2cDevice.writes = o.i2cDevice.writes ++ [[0x80, 0xAE]] ∧
    (o.send_cmd c).oled = o.oled ∧
    ∃ o', o.send_cmd_list buf num = some o' ∧ o'.oled = o.oled ∧
      o'.i2cDevice.writes = o.i2cDevice.writes ++ (buf.take num).map (fun b => [0x80, b]) ∧
      o'.i2cDevice.writes.length = o.i2cDevice.writes.length + num ∧
      ∀ j, j < num →
        o'.i2cDevice.writes[o.i2cDevice.writes.length + j]? = some [0x80, buf.getD j 0] := by
  refine ⟨rfl, rfl, rfl, _, send_cmd_list_eq o buf num hnum, rfl, rfl, ?_, ?_⟩
  · show (o.i2cDevice.writes ++ (buf.take num).map commandFrame).length = _
    rw [List.length_append, List.length_map, List.length_take, Nat.min_eq_left hnum]
  · intro j hj
    exact frames_getElem? _ buf num j hnum hj

/-- Witness of C11: three of four command bytes sent on a failing bus. -/
theorem command_framing_witness :
    ∃ o', send_cmd_list ⟨panel16x8 0, deadBus⟩ [0xAE, 0xD5, 0x80, 0xA8] 3 = some o' ∧
      o'.i2cDevice.writes = [[0x80, 0xAE], [0x80, 0xD5], [0x80, 0x80]] :=
  by
  obtain ⟨-, -, -, o', h1, -, h2, -⟩ :=
    command_framing ⟨panel16x8 0, deadBus⟩ 0xAE [0xAE, 0xD5, 0x80, 0xA8] 3 (by decide)
  exact ⟨o', h1, h2⟩

/-- What `send_buf` does when the allocation of the `n + 1` byte block
succeeds: on an array of `n` bytes it returns after exactly one bus write of
`n + 1` bytes, `0x40` followed by the `n` payload bytes unchanged and in
order; `buf` and the display members are unchanged. -/
theorem data_framing (o : GrayOLEDBus) (malloc : Int → Option (List Nat))
    (buf blk : List Nat) (hm : malloc ((buf.length : Int) + 1) = some blk)
    (hl : blk.length = buf.length + 1) :
    ∃ o', o.send_buf malloc buf buf.length = some (o', buf) ∧ o'.oled = o.oled ∧
      o'.i2cDevice.writes = o.i2cDevice.writes ++ [0x40 :: buf] ∧
      (0x40 :: buf).length = buf.length + 1 ∧
      (buf = [0x11, 0x22] →
        o'.i2cDevice.writes = o.i2cDevice.writes ++ [[0x40, 0x11, 0x22]]) := by
  obtain ⟨b, rest, rfl⟩ : ∃ b rest, blk = b :: rest := by
    cases blk with
    | nil => simp at hl
    | cons b rest => exact ⟨b, rest, rfl⟩
  have hr : rest.length = buf.length := by simpa using hl
  have h0 : ¬ ((buf.length : Int) < 0) := by omega
  have ht : ((buf.length : Int) + 1).toNat = buf.length + 1 := by omega
  have hw : o.send_buf malloc buf buf.length = some
      (⟨o.oled, ⟨o.i2cDevice.writes ++ [0x40 :: buf], o.i2cDevice.fails⟩⟩, buf) := by
    unfold send_buf
    rw [hm]
    simp [Adafruit_I2CDevice.write, hr, h0, ht, Nat.add_comm 1 buf.length]
  refine ⟨_, hw, rfl, rfl, rfl, ?_⟩
  intro hb
  show o.i2cDevice.writes ++ [0x40 :: buf] = _
  rw [hb]

/-- An instance of `data_framing`: sending `[0x11, 0x22]`. -/
theorem data_framing_witness :
    ∃ o', send_buf ⟨panel16x8 0, goodBus⟩ mallocOk [0x11, 0x22] 2 = some (o', [0x11, 0x22]) ∧
      o'.i2cDevice.writes = [[0x40, 0x11, 0x22]] :=
  by
  obtain ⟨o', h1, -, h2, -⟩ :=
    data_framing ⟨panel16x8 0, goodBus⟩ mallocOk [0x11, 0x22] [0xCD, 0xCD, 0xCD]
      (by decide) (by decide)
  exact ⟨o', h1, h2⟩

/-- C12: the claim fails on the code when the allocation fails. `send_buf`
does not test the result of `malloc`: for `send_buf([0x11, 0x22], 2)` with
`malloc(3)` returning `NULL` the store `temp_buf[0] = 0x40` faults and no bus
write is issued, where the claim promises the single write
`[0x40, 0x11, 0x22]`. The sibling `_init` tests `malloc` and returns `false`.
With a successful allocation the same call issues exactly that write and
leaves `buf` as it was. -/
theorem send_buf_faults_on_failed_malloc :
    send_buf ⟨panel16x8 0, goodBus⟩ mallocFail [0x11, 0x22] 2 = none ∧
    (_init ⟨16, 8, 0, none, 1024, 1024, -1, -1⟩ mallocFail).map (fun r => r.1)
      = some false ∧
    (send_buf ⟨panel16x8 0, goodBus⟩ mallocOk [0x11, 0x22] 2).map
        (fun r => (r.1.i2cDevice.writes, r.2))
      = some ([[0x40, 0x11, 0x22]], [0x11, 0x22]) := by
  refine ⟨rfl, ?_, ?_⟩ <;> decide

/-! ## Bus failures -/

/-- C16: for every `level` (nothing is validated, values above `0x7F`
included) `setContrast(level)` returns after exactly two bus writes,
`[0x80, 0x81]` then `[0x80, level]`, and leaves the pixel buffer and the dirty
window unchanged. -/
theorem setContrast_two_writes (o : GrayOLEDBus) (level : Nat) :
    ∃ o', o.setContrast level = some o' ∧
      o'.i2cDevice.writes = o.i2cDevice.writes ++ [[0x80, 0x81], [0x80, level]] ∧
      o'.oled.buffer = o.oled.buffer ∧
      (o'.oled.window_x1, o'.oled.window_y1, o'.oled.window_x2, o'.oled.window_y2) =
        (o.oled.window_x1, o.oled.window_y1, o.oled.window_x2, o.oled.window_y2) ∧
      o'.oled = o.oled := by
  refine ⟨_, send_cmd_list_eq o [GRAYOLED_SETCONTRAST, level] 2 (by simp), ?_, rfl, rfl, rfl⟩
  rfl

/-- C17: `invertDisplay(true)` issues exactly one bus write, `[0x80, 0xA7]`,
`invertDisplay(false)` exactly one, `[0x80, 0xA6]`, and in both cases the pixel
buffer and the dirty window are unchanged. -/
theorem invertDisplay_one_write (o : GrayOLEDBus) :
    (o.invertDisplay true).i2cDevice.writes = o.i2cDevice.writes ++ [[0x80, 0xA7]] ∧
    (o.invertDisplay false).i2cDevice.writes = o.i2cDevice.writes ++ [[0x80, 0xA6]] ∧
    (∀ i : Bool, (o.invertDisplay i).oled.buffer = o.oled.buffer ∧
      ((o.invertDisplay i).oled.window_x1, (o.invertDisplay i).oled.window_y1,
        (o.invertDisplay i).oled.window_x2, (o.invertDisplay i).oled.window_y2) =
        (o.oled.window_x1, o.oled.window_y1, o.oled.window_x2, o.oled.window_y2) ∧
      (o.invertDisplay i).oled = o.oled) :=
  ⟨rfl, rfl, fun _ => ⟨rfl, rfl, rfl⟩⟩

/-! ## Allocation -/

theorem bufferSize_eq {s : Adafruit_GrayOLED} (hH : 0 < s.HEIGHT) :
    s.bufferSize = s.WIDTH * ((s.HEIGHT + 7) / 8) := by
  unfold bufferSize
  rw [Int.tdiv_eq_ediv (by omega) (by norm_num)]

theorem bufferSize_nonneg {s : Adafruit_GrayOLED} (hW : 0 < s.WIDTH) (hH : 0 < s.HEIGHT) :
    0 ≤ s.bufferSize := by
  rw [bufferSize_eq hH]
  exact Int.mul_nonneg (le_of_lt hW) (by omega)

/-- What `clearDisplay` does to a block of the `memset` length, whatever it
holds. -/
theorem clearDisplay_of_length {s : Adafruit_GrayOLED} {buf : List Nat}
    (hW : 0 < s.WIDTH) (hW2 : s.WIDTH ≤ 32767) (hH : 0 < s.HEIGHT) (hH2 : s.HEIGHT ≤ 32767)
    (hbuf : s.buffer = some buf) (hlen : (buf.length : Int) = s.bufferSize) :
    s.clearDisplay = some
      { s with
        buffer := some (List.replicate buf.length 0)
        window_x1 := 0
        window_y1 := 0
        window_x2 := s.WIDTH - 1
        window_y2 := s.HEIGHT - 1 } := by
  have hn : 0 ≤ s.bufferSize := bufferSize_nonneg hW hH
  have hl : s.bufferSize.toNat = buf.length := by omega
  unfold clearDisplay
  rw [hbuf]
  simp only [hn, hl, le_refl, and_self, if_true, List.drop_length, List.append_nil,
    toInt16_of_range (show -32768 ≤ s.WIDTH - 1 by omega) (show s.WIDTH - 1 ≤ 32767 by omega),
    toInt16_of_range (show -32768 ≤ s.HEIGHT - 1 by omega)
      (show s.HEIGHT - 1 ≤ 32767 by omega)]

/-- What `_init` does once the buffer pointer is not `NULL`. -/
theorem init_of_buffer {s : Adafruit_GrayOLED} {buf : List Nat}
    (malloc : Int → Option (List Nat))
    (hW : 0 < s.WIDTH) (hW2 : s.WIDTH ≤ 32767) (hH : 0 < s.HEIGHT) (hH2 : s.HEIGHT ≤ 32767)
    (hbuf : s.buffer = some buf) (hlen : (buf.length : Int) = s.bufferSize) :
    s._init malloc = some (true,
      { s with
        buffer := some (List.replicate buf.length 0)
        window_x1 := 0
        window_y1 := 0
        window_x2 := s.WIDTH - 1
        window_y2 := s.HEIGHT - 1 }) := by
  unfold _init
  simp only [hbuf, clearDisplay_of_length hW hW2 hH hH2 hbuf hlen,
    toInt16_of_range (show -32768 ≤ s.WIDTH - 1 by omega) (show s.WIDTH - 1 ≤ 32767 by omega),
    toInt16_of_range (show -32768 ≤ s.HEIGHT - 1 by omega)
      (show s.HEIGHT - 1 ≤ 32767 by omega)]

/-- What `_init` does on an object without buffer when the allocation
succeeds. -/
theorem init_of_malloc {s : Adafruit_GrayOLED} {blk : List Nat}
    (malloc : Int → Option (List Nat))
    (hW : 0 < s.WIDTH) (hW2 : s.WIDTH ≤ 32767) (hH : 0 < s.HEIGHT) (hH2 : s.HEIGHT ≤ 32767)
    (hnull : s.buffer = none) (hblk : malloc s.bufferSize = some blk)
    (hlen : (blk.length : Int) = s.bufferSize) :
    s._init malloc = some (true,
      { s with
        buffer := some (List.replicate blk.length 0)
        window_x1 := 0
        window_y1 := 0
        window_x2 := s.WIDTH - 1
        window_y2 := s.HEIGHT - 1 }) := by
  have hblk' : malloc (s.WIDTH * ((s.HEIGHT + 7).tdiv 8)) = some blk := hblk
  have hc := clearDisplay_of_length (s := { s with buffer := some blk }) hW hW2 hH hH2 rfl hlen
  unfold _init
  simp only [hnull, hblk', hc,
    toInt16_of_range (show -32768 ≤ s.WIDTH - 1 by omega) (show s.WIDTH - 1 ≤ 32767 by omega),
    toInt16_of_range (show -32768 ≤ s.HEIGHT - 1 by omega)
      (show s.HEIGHT - 1 ≤ 32767 by omega)]

/-- What `_init` does on an object without buffer when the allocation
fails. -/
theorem init_of_malloc_failure {s : Adafruit_GrayOLED} (malloc : Int → Option (List Nat))
    (hnull : s.buffer = none) (hfail : malloc s.bufferSize = none) :
    s._init malloc = some (false, s) := by
  have hfail' : malloc (s.WIDTH * ((s.HEIGHT + 7).tdiv 8)) = none := hfail
  obtain ⟨W, H, r, b, x1, y1, x2, y2⟩ := s
  simp only at hnull
  subst hnull
  unfold _init
  simp only [hfail']

theorem lawful_mallocOk : LawfulMalloc mallocOk := by
  intro n blk h
  unfold mallocOk at h
  split_ifs at h with hn
  obtain rfl := Option.some.inj h
  rw [List.length_replicate]
  exact Int.toNat_of_nonneg hn

/-- C14, as stated, fails on the code: for the 5×12 panel `_init` allocates
(and `clearDisplay` zeroes) `5 * ((12 + 7) / 8) = 10` bytes, while
`ceil(5 * 12 / 8)` is 8. -/
theorem init_length_is_not_ceil :
    (_init ⟨5, 12, 0, none, 0, 0, 0, 0⟩ mallocOk).map (fun r => r.2.buffer.map List.length)
      = some (some 10) ∧
    bufferSize ⟨5, 12, 0, none, 0, 0, 0, 0⟩ = 10 ∧
    ((5 * 12 + 7) / 8 : Int) = 8 ∧
    bufferSize ⟨5, 12, 0, none, 0, 0, 0, 0⟩ ≠ (5 * 12 + 7) / 8 := by
  decide

/-- C14, amended: for every panel size `0 < W, H <= 32767` the buffer that
`_init` allocates, and `clearDisplay` zeroes, has exactly `W * ceil(H/8)`
bytes (`W * ((H + 7) / 8)`: every column padded to whole bytes); this is at
least `ceil(W*H/8)`, and equal to it when `H` is a multiple of 8. -/
theorem init_buffer_length (s : Adafruit_GrayOLED) (malloc : Int → Option (List Nat))
    (blk : List Nat)
    (hW : 0 < s.WIDTH) (hW2 : s.WIDTH ≤ 32767) (hH : 0 < s.HEIGHT) (hH2 : s.HEIGHT ≤ 32767)
    (hm : LawfulMalloc malloc) (hnull : s.buffer = none)
    (hblk : malloc (s.WIDTH * ((s.HEIGHT + 7).tdiv 8)) = some blk) :
    ∃ s' buf', s._init malloc = some (true, s') ∧ s'.buffer = some buf' ∧
      (buf'.length : Int) = s.WIDTH * ((s.HEIGHT + 7) / 8) ∧
      s'.bufferSize = (buf'.length : Int) ∧
      (s.WIDTH * s.HEIGHT + 7) / 8 ≤ (buf'.length : Int) ∧
      (s.HEIGHT % 8 = 0 → (buf'.length : Int) = (s.WIDTH * s.HEIGHT + 7) / 8) := by
  have hlen : (blk.length : Int) = s.bufferSize := hm _ _ hblk
  have hsz := bufferSize_eq (s := s) hH
  have hq : s.HEIGHT ≤ 8 * ((s.HEIGHT + 7) / 8) := by omega
  have hmul : s.WIDTH * s.HEIGHT ≤ s.WIDTH * (8 * ((s.HEIGHT + 7) / 8)) :=
    Int.mul_le_mul_of_nonneg_left hq (le_of_lt hW)
  have hassoc : s.WIDTH * (8 * ((s.HEIGHT + 7) / 8)) = 8 * (s.WIDTH * ((s.HEIGHT + 7) / 8)) := by
    ring
  refine ⟨_, _, init_of_malloc malloc hW hW2 hH hH2 hnull hblk hlen, rfl, ?_, ?_, ?_, ?_⟩
  · rw [List.length_replicate, hlen, hsz]
  · show s.bufferSize = _
    rw [List.length_replicate, hlen]
  · rw [List.length_replicate, hlen, hsz]
    omega
  · intro h8
    rw [List.length_replicate, hlen, hsz]
    obtain ⟨k, hk⟩ : ∃ k, s.HEIGHT = 8 * k := ⟨s.HEIGHT / 8, by omega⟩
    have e1 : (s.HEIGHT + 7) / 8 = k := by omega
    have e2 : s.WIDTH * s.HEIGHT = 8 * (s.WIDTH * k) := by rw [hk]; ring
    rw [e1, e2]
    omega

/-- Witness of the amended C14: the 5×12 panel. -/
theorem init_buffer_length_witness :
    ∃ s' buf', _init ⟨5, 12, 0, none, 0, 0, 0, 0⟩ mallocOk = some (true, s') ∧
      s'.buffer = some buf' ∧ (buf'.length : Int) = 5 * ((12 + 7) / 8) ∧
      ((5 : Int) * 12 + 7) / 8 ≤ (buf'.length : Int) := by
  obtain ⟨s', buf', h1, h2, h3, -, h4, -⟩ :=
    init_buffer_length ⟨5, 12, 0, none, 0, 0, 0, 0⟩ mallocOk (List.replicate 10 0xCD)
      (by decide) (by decide) (by decide) (by decide) lawful_mallocOk rfl (by decide)
  exact ⟨s', buf', h1, h2, h3, h4⟩

/-- C15: with a lawful allocator and a panel size `0 < W, H <= 32767`,
`_init` returns; it returns `false` exactly when the buffer was unallocated
and the allocation fails, and then the object is unchanged with the buffer
still unallocated; in every other case (allocation succeeded, or a buffer of
the panel's length was already there) it returns `true` with every buffer byte
zero and the dirty window equal to `(0, 0, W-1, H-1)`. -/
theorem init_result (s : Adafruit_GrayOLED) (malloc : Int → Option (List Nat))
    (hW : 0 < s.WIDTH) (hW2 : s.WIDTH ≤ 32767) (hH : 0 < s.HEIGHT) (hH2 : s.HEIGHT ≤ 32767)
    (hm : LawfulMalloc malloc)
    (hpre : ∀ buf, s.buffer = some buf →
      (buf.length : Int) = s.WIDTH * ((s.HEIGHT + 7) / 8)) :
    ∃ r s', s._init malloc = some (r, s') ∧
      (r = false ↔
        (s.buffer = none ∧ malloc (s.WIDTH * ((s.HEIGHT + 7) / 8)) = none)) ∧
      (r = false → s'.buffer = none ∧ s' = s) ∧
      (r = true → ∃ buf', s'.buffer = some buf' ∧
        (buf'.length : Int) = s.WIDTH * ((s.HEIGHT + 7) / 8) ∧ (∀ b ∈ buf', b = 0) ∧
        (s'.window_x1, s'.window_y1, s'.window_x2, s'.window_y2) =
          (0, 0, s.WIDTH - 1, s.HEIGHT - 1)) := by
  have hsz := bufferSize_eq (s := s) hH
  rw [← hsz]
  rw [← hsz] at hpre
  cases hb : s.buffer with
  | some buf =>
    have hlen := hpre buf hb
    refine ⟨true, _, init_of_buffer malloc hW hW2 hH hH2 hb hlen, ?_, ?_, ?_⟩
    · simp
    · intro h; exact absurd h (by simp)
    · intro _
      exact ⟨_, rfl, by rw [List.length_replicate]; exact hlen,
        fun b hb => List.eq_of_mem_replicate hb, rfl⟩
  | none =>
    cases hmal : malloc s.bufferSize with
    | none =>
      refine ⟨false, s, init_of_malloc_failure malloc hb hmal, ?_, ?_, ?_⟩
      · simp
      · intro _; exact ⟨hb, rfl⟩
      · intro h; exact absurd h (by simp)
    | some blk =>
      have hlen : (blk.length : Int) = s.bufferSize := hm _ _ hmal
      refine ⟨true, _, init_of_malloc malloc hW hW2 hH hH2 hb hmal hlen, ?_, ?_, ?_⟩
      · simp
      · intro h; exact absurd h (by simp)
      · intro _
        exact ⟨_, rfl, by rw [List.length_replicate]; exact hlen,
          fun b hb => List.eq_of_mem_replicate hb, rfl⟩

/-- Witness of C15: a failed allocation on a fresh 5×12 object. -/
theorem init_result_witness :
    LawfulMalloc mallocFail ∧
    ∃ r s', _init ⟨5, 12, 0, none, 7, 7, 7, 7⟩ mallocFail = some (r, s') ∧
      (r = false ↔
        ((none : Option (List Nat)) = none ∧ mallocFail (5 * ((12 + 7) / 8)) = none)) ∧
      (r = false → s'.buffer = none ∧ s' = ⟨5, 12, 0, none, 7, 7, 7, 7⟩) ∧
      (r = true → ∃ buf', s'.buffer = some buf' ∧
        (buf'.length : Int) = 5 * ((12 + 7) / 8) ∧ (∀ b ∈ buf', b = 0) ∧
        (s'.window_x1, s'.window_y1, s'.window_x2, s'.window_y2) = (0, 0, 5 - 1, 12 - 1)) :=
  ⟨fun _ _ h => Option.noConfusion h,
    init_result ⟨5, 12, 0, none, 7, 7, 7, 7⟩ mallocFail (by decide) (by decide) (by decide)
      (by decide) (fun _ _ h => Option.noConfusion h)
      (fun _ h => Option.noConfusion h)⟩

/-! ## Memory safety of the pixel primitives -/

/-- A panel with a buffer of the allocated length holding bytes is an
initialised display. -/
theorem valid_of_buffer {s : Adafruit_GrayOLED} {buf : List Nat}
    (hW : 0 < s.WIDTH) (hW2 : s.WIDTH ≤ 32767) (hH : 0 < s.HEIGHT) (hH2 : s.HEIGHT ≤ 32767)
    (hr : s.rotation < 4) (hlen : (buf.length : Int) = s.bufferSize)
    (hbytes : ∀ b ∈ buf, b < 256) :
    Valid { s with buffer := some buf } :=
  ⟨hW, hW2, hH, hH2, hr, hlen, hbytes⟩

/-- C18: for every panel with `0 < W, H <= 32767`, every orientation in
`0..3` and every in-bounds logical `(x, y)`, the coordinates `(x', y')` that
the rotation switch of `drawPixel` and `getPixel` computes satisfy
`0 <= x' < W` and `0 <= y' < H`, the accessed byte index `x' + (y'/8)*W` is
`>= 0` and `< W*((H+7)/8)`, and with any buffer of that length both functions
return without a fault, also when `H` is not a multiple of 8. -/
theorem buffer_index_in_range (s : Adafruit_GrayOLED) (x y : Int)
    (hW : 0 < s.WIDTH) (hW2 : s.WIDTH ≤ 32767) (hH : 0 < s.HEIGHT) (hH2 : s.HEIGHT ≤ 32767)
    (hr : s.rotation < 4)
    (hx0 : 0 ≤ x) (hx1 : x < s.width) (hy0 : 0 ≤ y) (hy1 : y < s.height) :
    ∃ p : Int × Int,
      (match s.getRotation with
        | 1 =>
          let q := grayoled_swap x y
          (toInt16 (s.WIDTH - q.1 - 1), q.2)
        | 2 => (toInt16 (s.WIDTH - x - 1), toInt16 (s.HEIGHT - y - 1))
        | 3 =>
          let q := grayoled_swap x y
          (q.1, toInt16 (s.HEIGHT - q.2 - 1))
        | _ => (x, y)) = p ∧
      0 ≤ p.1 ∧ p.1 < s.WIDTH ∧ 0 ≤ p.2 ∧ p.2 < s.HEIGHT ∧
      0 ≤ p.1 + p.2.tdiv 8 * s.WIDTH ∧
      p.1 + p.2.tdiv 8 * s.WIDTH < s.WIDTH * ((s.HEIGHT + 7).tdiv 8) ∧
      ∀ (buf : List Nat) (c : Nat),
        (buf.length : Int) = s.WIDTH * ((s.HEIGHT + 7).tdiv 8) → (∀ b ∈ buf, b < 256) →
        (∃ s', drawPixel { s with buffer := some buf } x y c = some s') ∧
        (∃ b, getPixel { s with buffer := some buf } x y = some b) := by
  have hv0 : Valid { s with buffer := some (List.replicate s.bufferSize.toNat 0) } :=
    valid_of_buffer hW hW2 hH hH2 hr
      (by rw [List.length_replicate]; exact Int.toNat_of_nonneg (bufferSize_nonneg hW hH))
      (fun b hb => by rw [List.eq_of_mem_replicate hb]; norm_num)
  have hb0 : InBounds { s with buffer := some (List.replicate s.bufferSize.toNat 0) } x y :=
    ⟨hx0, hx1, hy0, hy1⟩
  obtain ⟨h1, h2, h3, h4⟩ := phys_range hv0 hb0
  obtain ⟨h5, h6⟩ := index_range hW h1 h2 h3 h4
  have hdiv : (s.phys x y).2.tdiv 8 = (s.phys x y).2 / 8 := Int.tdiv_eq_ediv h3 (by norm_num)
  have hrot := rotate_eq hv0 hb0
  refine ⟨s.phys x y, hrot, h1, h2, h3, h4, ?_, ?_, ?_⟩
  · rw [hdiv]; exact h5
  · rw [hdiv]; exact h6
  · intro buf c hlen hbytes
    have hv : Valid { s with buffer := some buf } :=
      valid_of_buffer hW hW2 hH hH2 hr hlen hbytes
    have hb : InBounds { s with buffer := some buf } x y := ⟨hx0, hx1, hy0, hy1⟩
    exact ⟨⟨_, drawPixel_eq c hv hb rfl⟩, ⟨_, getPixel_eq hv hb rfl⟩⟩

/-- Witness of C18: the last logical point of the 5×12 panel in
orientation 3. -/
theorem buffer_index_in_range_witness :
    ∃ p : Int × Int, grayoled_swap 11 4 = (p.1, 12 - 1 - p.2) ∧
      0 ≤ p.1 ∧ p.1 < 5 ∧ 0 ≤ p.2 ∧ p.2 < 12 ∧
      0 ≤ p.1 + p.2.tdiv 8 * 5 ∧ p.1 + p.2.tdiv 8 * 5 < 5 * (((12 : Int) + 7).tdiv 8) := by
  obtain ⟨p, h0, h1, h2, h3, h4, h5, h6, -⟩ :=
    buffer_index_in_range (panel5x12 3) 11 4 (by decide) (by decide) (by decide) (by decide)
      (by decide) (by decide) (by decide) (by decide) (by decide)
  refine ⟨p, ?_, h1, h2, h3, h4, h5, h6⟩
  rw [← h0]
  decide

/-! ## First write after a reset -/

/-- C19, as stated, fails on the code: `clearDisplay()` resets the dirty
window, and the first `drawPixel(2, 3, WHITE)` after it, at physical `(2, 3)`
of the non-rotated 16×8 panel, leaves the window `(0, 0, 15, 7)`, not
`(2, 3, 2, 3)`. -/
theorem first_write_after_clear_is_not_a_point :
    ∃ s1 s2, (panel16x8 0).clearDisplay = some s1 ∧
      s1.drawPixel 2 3 MONOOLED_WHITE = some s2 ∧
      rotationMap s1.rotation s1.WIDTH s1.HEIGHT 2 3 = (2, 3) ∧
      (s2.window_x1, s2.window_y1, s2.window_x2, s2.window_y2) = (0, 0, 15, 7) ∧
      (s2.window_x1, s2.window_y1, s2.window_x2, s2.window_y2) ≠ (2, 3, 2, 3) :=
  ⟨_, _, rfl, rfl, by decide, by decide, by decide⟩

/-- C19, amended: on an initialised display, the first in-bounds `drawPixel`
after the dirty window was reset to empty (a window holding nothing pending)
leaves the window equal to the single point `(x', y', x', y')`; the first
in-bounds `drawPixel` after the reset to the whole panel, which is the one
`clearDisplay` performs, leaves the window `(0, 0, W-1, H-1)`. -/
theorem first_write_after_reset (s : Adafruit_GrayOLED) (x y : Int) (c : Nat)
    (hv : s.Valid) (hx0 : 0 ≤ x) (hx1 : x < s.width) (hy0 : 0 ≤ y) (hy1 : y < s.height) :
    (WindowEmpty s →
      ∃ s', s.drawPixel x y c = some s' ∧
        (s'.window_x1, s'.window_y1, s'.window_x2, s'.window_y2) =
          ((rotationMap s.rotation s.WIDTH s.HEIGHT x y).1,
           (rotationMap s.rotation s.WIDTH s.HEIGHT x y).2,
           (rotationMap s.rotation s.WIDTH s.HEIGHT x y).1,
           (rotationMap s.rotation s.WIDTH s.HEIGHT x y).2)) ∧
    (∃ s1 s2, s.clearDisplay = some s1 ∧ s1.drawPixel x y c = some s2 ∧
      (s2.window_x1, s2.window_y1, s2.window_x2, s2.window_y2) =
        (0, 0, s.WIDTH - 1, s.HEIGHT - 1)) := by
  have hb : s.InBounds x y := ⟨hx0, hx1, hy0, hy1⟩
  obtain ⟨p1, p2, p3, p4⟩ := phys_range hv hb
  constructor
  · intro hempty
    obtain ⟨e1, e2, e3, e4⟩ := hempty
    obtain ⟨buf, s', -, hdraw, -, -, -, -, -, -, -, h1, h2, h3, h4⟩ := drawPixel_step c hv hb
    refine ⟨s', hdraw, ?_⟩
    have m1 : min s.window_x1 (s.phys x y).1 = (s.phys x y).1 := min_eq_right (by omega)
    have m2 : min s.window_y1 (s.phys x y).2 = (s.phys x y).2 := min_eq_right (by omega)
    have m3 : max s.window_x2 (s.phys x y).1 = (s.phys x y).1 := max_eq_right (by omega)
    have m4 : max s.window_y2 (s.phys x y).2 = (s.phys x y).2 := max_eq_right (by omega)
    rw [h1, h2, h3, h4, m1, m2, m3, m4]
    rfl
  · have hv1 := valid_cleared hv s.rotation hv.2.2.2.2.1 0 0 (s.WIDTH - 1) (s.HEIGHT - 1)
    obtain ⟨buf, s2, -, hdraw, -, -, -, -, -, -, -, h1, h2, h3, h4⟩ :=
      drawPixel_step c hv1 (show InBounds _ x y from hb)
    refine ⟨_, s2, clearDisplay_eq hv, hdraw, ?_⟩
    have h1' : s2.window_x1 = min 0 (s.phys x y).1 := h1
    have h2' : s2.window_y1 = min 0 (s.phys x y).2 := h2
    have h3' : s2.window_x2 = max (s.WIDTH - 1) (s.phys x y).1 := h3
    have h4' : s2.window_y2 = max (s.HEIGHT - 1) (s.phys x y).2 := h4
    have m1 : min (0 : Int) (s.phys x y).1 = 0 := min_eq_left p1
    have m2 : min (0 : Int) (s.phys x y).2 = 0 := min_eq_left p3
    have m3 : max (s.WIDTH - 1) (s.phys x y).1 = s.WIDTH - 1 := max_eq_left (by omega)
    have m4 : max (s.HEIGHT - 1) (s.phys x y).2 = s.HEIGHT - 1 := max_eq_left (by omega)
    rw [h1', h2', h3', h4', m1, m2, m3, m4]

/-- Witness of the amended C19: logical `(2, 3)` on the 16×8 panel in
orientation 2, whose window holds nothing pending. -/
theorem first_write_after_reset_witness :
    (panel16x8 2).Valid ∧ WindowEmpty (panel16x8 2) ∧
    (∃ s', (panel16x8 2).drawPixel 2 3 MONOOLED_WHITE = some s' ∧
      (s'.window_x1, s'.window_y1, s'.window_x2, s'.window_y2) = (13, 4, 13, 4)) ∧
    (∃ s1 s2, (panel16x8 2).clearDisplay = some s1 ∧
      s1.drawPixel 2 3 MONOOLED_WHITE = some s2 ∧
      (s2.window_x1, s2.window_y1, s2.window_x2, s2.window_y2) = (0, 0, 16 - 1, 8 - 1)) :=
  ⟨by decide, by decide,
    (first_write_after_reset (panel16x8 2) 2 3 MONOOLED_WHITE (by decide) (by decide)
      (by decide) (by decide) (by decide)).1 (by decide),
    (first_write_after_reset (panel16x8 2) 2 3 MONOOLED_WHITE (by decide) (by decide)
      (by decide) (by decide) (by decide)).2⟩

/-! ## Unrecognised colours -/

/-- C20: for every in-bounds logical `(x, y)`, every orientation and every
colour value other than `MONOOLED_BLACK`, `MONOOLED_WHITE` and `MONOOLED_INVERSE`
(`0xFFFF` for one), `drawPixel(x, y, c)` returns with every byte of the buffer
unchanged and with the dirty window expanded to include the physical point
`(x', y')`. -/
theorem unknown_colour_only_dirties (s : Adafruit_GrayOLED) (x y : Int) (c : Nat)
    (hv : s.Valid) (hx0 : 0 ≤ x) (hx1 : x < s.width) (hy0 : 0 ≤ y) (hy1 : y < s.height)
    (hc0 : c ≠ MONOOLED_BLACK) (hc1 : c ≠ MONOOLED_WHITE) (hc2 : c ≠ MONOOLED_INVERSE) :
    ∃ s', s.drawPixel x y c = some s' ∧ s'.buffer = s.buffer ∧
      (s'.window_x1, s'.window_y1, s'.window_x2, s'.window_y2) =
        (min s.window_x1 (rotationMap s.rotation s.WIDTH s.HEIGHT x y).1,
         min s.window_y1 (rotationMap s.rotation s.WIDTH s.HEIGHT x y).2,
         max s.window_x2 (rotationMap s.rotation s.WIDTH s.HEIGHT x y).1,
         max s.window_y2 (rotationMap s.rotation s.WIDTH s.HEIGHT x y).2) ∧
      s'.window_x1 ≤ (rotationMap s.rotation s.WIDTH s.HEIGHT x y).1 ∧
      (rotationMap s.rotation s.WIDTH s.HEIGHT x y).1 ≤ s'.window_x2 ∧
      s'.window_y1 ≤ (rotationMap s.rotation s.WIDTH s.HEIGHT x y).2 ∧
      (rotationMap s.rotation s.WIDTH s.HEIGHT x y).2 ≤ s'.window_y2 ∧
      s.drawPixel x y 0xFFFF = some s' := by
  have hb : s.InBounds x y := ⟨hx0, hx1, hy0, hy1⟩
  obtain ⟨buf, s', hbuf, hdraw, -, -, -, -, hlt, -, hbuf', h1, h2, h3, h4⟩ :=
    drawPixel_step c hv hb
  have hsame : s'.buffer = s.buffer := by
    rw [hbuf', hbuf, pixelOp_other ⟨hc0, hc1, hc2⟩, List.getD_eq_getElem buf 0 hlt,
      list_set_self _ _ hlt]
  have hF : s.drawPixel x y 0xFFFF = some s' := by
    rw [hdraw.symm.trans (drawPixel_eq c hv hb hbuf), drawPixel_eq 0xFFFF hv hb hbuf,
      pixelOp_other ⟨hc0, hc1, hc2⟩,
      pixelOp_other (c := 0xFFFF) ⟨by norm_num, by norm_num, by norm_num⟩]
  refine ⟨s', hdraw, hsame, ?_, ?_, ?_, ?_, ?_, hF⟩
  · rw [h1, h2, h3, h4]; rfl
  · rw [h1]; exact min_le_right _ _
  · rw [h3]; exact le_max_right _ _
  · rw [h2]; exact min_le_right _ _
  · rw [h4]; exact le_max_right _ _

/-- Witness of C20: colour `7` at logical `(1, 2)` of the 5×12 panel in
orientation 1. -/
theorem unknown_colour_only_dirties_witness :
    (panel5x12 1).Valid ∧ (7 : Nat) ≠ MONOOLED_BLACK ∧ (7 : Nat) ≠ MONOOLED_WHITE ∧
    (7 : Nat) ≠ MONOOLED_INVERSE ∧
    ∃ s', (panel5x12 1).drawPixel 1 2 7 = some s' ∧ s'.buffer = (panel5x12 1).buffer ∧
      s'.window_x1 ≤ (rotationMap 1 5 12 1 2).1 ∧ (rotationMap 1 5 12 1 2).1 ≤ s'.window_x2 ∧
      s'.window_y1 ≤ (rotationMap 1 5 12 1 2).2 ∧ (rotationMap 1 5 12 1 2).2 ≤ s'.window_y2 := by
  obtain ⟨s', h1, h2, -, h3, h4, h5, h6, -⟩ :=
    unknown_colour_only_dirties (panel5x12 1) 1 2 7 (by decide) (by decide) (by decide)
      (by decide) (by decide) (by decide) (by decide) (by decide)
  exact ⟨by decide, by decide, by decide, by decide, s', h1, h2, h3, h4, h5, h6⟩

end GrayOLED
